import Mathlib

/-!
Verification of the FBref table-extraction core.

The development shallowly embeds the Python sources
(App Scraper/scraper.py and api/fbref-extract.py).  Python strings are
modelled as lists of Unicode code points (`List Nat`); ASCII case maps
mirror the behaviour of str.lower / str.upper / str.capitalize on the
inputs the program handles.  Fallible Python operations (int parsing of
span attributes, list indexing) are modelled with `Except`.
-/

/-- Python strings as code-point lists. -/
abbrev PyStr := List Nat

/-- Code-point list of a Lean string literal. -/
def lit (s : String) : PyStr := s.toList.map Char.toNat

/-- ASCII lower-casing of one code point (str.lower per character). -/
def lowerChar (n : Nat) : Nat := if 65 ≤ n ∧ n ≤ 90 then n + 32 else n

/-- ASCII upper-casing of one code point (str.upper per character). -/
def upperChar (n : Nat) : Nat := if 97 ≤ n ∧ n ≤ 122 then n - 32 else n

/-- str.lower. -/
def pyLower (s : PyStr) : PyStr := s.map lowerChar

/-- Python whitespace (the characters str.split splits on). -/
def isSpaceChar (n : Nat) : Bool :=
  n == 32 || n == 9 || n == 10 || n == 13 || n == 11 || n == 12

def isLowerAlpha (n : Nat) : Bool := 97 ≤ n && n ≤ 122

def isUpperAlpha (n : Nat) : Bool := 65 ≤ n && n ≤ 90

def isCased (n : Nat) : Bool := isLowerAlpha n || isUpperAlpha n

/-- str.isupper: at least one cased character and no lowercase one. -/
def pyIsUpper (s : PyStr) : Bool :=
  s.any isCased && s.all (fun c => !isLowerAlpha c)

/-- str.islower: at least one cased character and no uppercase one. -/
def pyIsLower (s : PyStr) : Bool :=
  s.any isCased && s.all (fun c => !isUpperAlpha c)

/-- str.strip(): remove leading and trailing whitespace. -/
def pyStrip (s : PyStr) : PyStr :=
  ((s.dropWhile isSpaceChar).reverse.dropWhile isSpaceChar).reverse

/-- str.capitalize(): first character upper-cased, the rest lower-cased. -/
def pyCapitalize : PyStr → PyStr
  | [] => []
  | c :: rest => upperChar c :: rest.map lowerChar

/-- Helper for str.split(): accumulate the current word (reversed) while
scanning. -/
def pySplitAux (acc : PyStr) : PyStr → List PyStr
  | [] => if acc = [] then [] else [acc.reverse]
  | c :: rest =>
    if isSpaceChar c then
      (if acc = [] then pySplitAux [] rest else acc.reverse :: pySplitAux [] rest)
    else pySplitAux (c :: acc) rest

/-- str.split() with no argument: split on whitespace runs, no empty words. -/
def pySplit (s : PyStr) : List PyStr := pySplitAux [] s

/-- " ".join(words). -/
def joinSpace : List PyStr → PyStr
  | [] => []
  | [w] => w
  | w :: x :: xs => w ++ 32 :: joinSpace (x :: xs)

/-- " ".join(s.split()): collapse internal whitespace. -/
def collapse (s : PyStr) : PyStr := joinSpace (pySplit s)

/-- s.startswith(p) over code-point lists. -/
def isPrefOf : PyStr → PyStr → Bool
  | [], _ => true
  | _ :: _, [] => false
  | a :: as_, b :: bs => a == b && isPrefOf as_ bs

/-- Python substring test (p in s): p is a prefix of some suffix of s. -/
def containsSub (p : PyStr) : PyStr → Bool
  | [] => isPrefOf p []
  | c :: t => isPrefOf p (c :: t) || containsSub p t

/-- s.endswith(p). -/
def isSufOf (p s : PyStr) : Bool := isPrefOf p.reverse s.reverse

/-- Lookup in an ordered association list (Python dict lookup; the dicts in
the source have distinct keys). -/
def alookup {α : Type} : List (PyStr × α) → PyStr → Option α
  | [], _ => none
  | (k, v) :: rest, s => if k = s then some v else alookup rest s

/-- The field_mapping synonym table (identical in scraper.py and
fbref-extract.py). -/
def field_mapping : List (PyStr × PyStr) :=
  [ (lit "rk", lit "Rk"),
    (lit "rank", lit "Rk"),
    (lit "squad", lit "Squad"),
    (lit "team", lit "Squad"),
    (lit "mp", lit "MP"),
    (lit "matches played", lit "MP"),
    (lit "w", lit "W"),
    (lit "wins", lit "W"),
    (lit "d", lit "D"),
    (lit "draws", lit "D"),
    (lit "l", lit "L"),
    (lit "losses", lit "L"),
    (lit "gf", lit "GF"),
    (lit "goals for", lit "GF"),
    (lit "ga", lit "GA"),
    (lit "goals against", lit "GA"),
    (lit "gd", lit "GD"),
    (lit "goal difference", lit "GD"),
    (lit "pts", lit "Pts"),
    (lit "points", lit "Pts"),
    (lit "pts/mp", lit "Pts/MP"),
    (lit "pts / mp", lit "Pts/MP"),
    (lit "points per match", lit "Pts/MP"),
    (lit "xg", lit "xG"),
    (lit "expected goals", lit "xG"),
    (lit "xga", lit "xGA"),
    (lit "expected goals against", lit "xGA"),
    (lit "xgd", lit "xGD"),
    (lit "expected goal difference", lit "xGD"),
    (lit "xgd/90", lit "xGD/90"),
    (lit "xgd /90", lit "xGD/90"),
    (lit "xgd / 90", lit "xGD/90"),
    (lit "last 5", lit "Last 5"),
    (lit "last5", lit "Last 5"),
    (lit "last five", lit "Last 5"),
    (lit "attendance", lit "Attendance"),
    (lit "top team scorer", lit "Top Team Scorer"),
    (lit "top scorer", lit "Top Team Scorer"),
    (lit "goalkeeper", lit "Goalkeeper"),
    (lit "gk", lit "Goalkeeper") ]

/-- The prefix/suffix synonym scan that only scraper.py performs: first
mapping entry whose key (longer than 2 characters) occurs in the lowered
header and is a prefix or suffix of it. -/
def loopFind : List (PyStr × PyStr) → PyStr → Option PyStr
  | [], _ => none
  | (k, v) :: rest, hl =>
    if containsSub k hl && decide (2 < k.length) && (isPrefOf k hl || isSufOf k hl) then
      some v
    else loopFind rest hl

/-- The four compound-field heuristics (shared by both sources, applied as
an if/elif chain). -/
def compoundFields (hl : PyStr) : Option PyStr :=
  if containsSub (lit "pts") hl && containsSub (lit "mp") hl then some (lit "Pts/MP")
  else if containsSub (lit "xgd") hl && containsSub (lit "90") hl then some (lit "xGD/90")
  else if containsSub (lit "last") hl && containsSub (lit "5") hl then some (lit "Last 5")
  else if containsSub (lit "top") hl && containsSub (lit "scorer") hl then some (lit "Top Team Scorer")
  else none

/-- The final case-adjustment step of both normalizers: title-case a
uniformly upper- or lower-case header, otherwise keep it. -/
def caseBranch (h : PyStr) : PyStr :=
  if pyIsUpper h || pyIsLower h then
    if 1 < (pySplit h).length then joinSpace ((pySplit h).map pyCapitalize)
    else pyCapitalize h
  else h

namespace Scraper

/-- scraper.py _normalize_header_name. -/
def normalize_header_name (header : PyStr) : PyStr :=
  if header = [] then header
  else
    let h := collapse header
    let hl := pyStrip (pyLower h)
    match alookup field_mapping hl with
    | some v => v
    | none =>
      match loopFind field_mapping hl with
      | some v => v
      | none =>
        match compoundFields hl with
        | some v => v
        | none => caseBranch h

end Scraper

namespace Api

/-- fbref-extract.py _normalize_header_name (no prefix/suffix synonym
scan). -/
def normalize_header_name (header : PyStr) : PyStr :=
  if header = [] then header
  else
    let h := collapse header
    let hl := pyStrip (pyLower h)
    match alookup field_mapping hl with
    | some v => v
    | none =>
      match compoundFields hl with
      | some v => v
      | none => caseBranch h

end Api

deriving instance DecidableEq for Except

/-- Kinds of Python exception the embedded code can raise. -/
inductive PyErr : Type
  | valueError : PyErr
  | indexError : PyErr
deriving DecidableEq

def isDigitChar (n : Nat) : Bool := 48 ≤ n && n ≤ 57

/-- Digits to value, given the list is all digits. -/
def digitsVal (s : PyStr) : Nat := s.foldl (fun a d => a * 10 + (d - 48)) 0

/-- Python int(string): optional surrounding whitespace, optional sign,
at least one digit; anything else raises ValueError. -/
def pyIntOfStr (s : PyStr) : Except PyErr Int :=
  let t := pyStrip s
  match t with
  | 43 :: ds => if ds ≠ [] ∧ ds.all isDigitChar then .ok (digitsVal ds) else .error .valueError
  | 45 :: ds => if ds ≠ [] ∧ ds.all isDigitChar then .ok (-(digitsVal ds : Int)) else .error .valueError
  | ds => if ds ≠ [] ∧ ds.all isDigitChar then .ok (digitsVal ds) else .error .valueError

/-- int(cell.get(attr, 1)): default 1 when the attribute is absent,
otherwise parse the raw attribute string. -/
def spanVal : Option PyStr → Except PyErr Int
  | none => .ok 1
  | some s => pyIntOfStr s

/-- Python list read l[i] with negative indexing; out of range raises. -/
def pyGetE {α : Type} (l : List α) (i : Int) : Except PyErr α :=
  let j : Int := if i < 0 then (l.length : Int) + i else i
  if 0 ≤ j ∧ j < (l.length : Int) then
    match l.get? j.toNat with
    | some a => .ok a
    | none => .error .indexError
  else .error .indexError

/-- Python list write l[i] = v with negative indexing; out of range
raises. -/
def pySetE {α : Type} (l : List α) (i : Int) (v : α) : Except PyErr (List α) :=
  let j : Int := if i < 0 then (l.length : Int) + i else i
  if 0 ≤ j ∧ j < (l.length : Int) then .ok (l.set j.toNat v)
  else .error .indexError

/-- Helper for range: count down the remaining length. -/
def intRangeAux : Nat → Int → List Int
  | 0, _ => []
  | n + 1, lo => lo :: intRangeAux n (lo + 1)

/-- Python range(lo, hi): the integers from lo up to but excluding hi,
empty when hi is not above lo. -/
def intRange (lo hi : Int) : List Int := intRangeAux (hi - lo).toNat lo

/-- Decimal digits of a natural number as code points. -/
def natToStr (n : Nat) : PyStr := (toString n).toList.map Char.toNat

/-- The synthesized column name col_i. -/
def colName (i : Nat) : PyStr := lit "col_" ++ natToStr i

/-- A table cell: raw colspan/rowspan attribute values (absent = none) and
the get_text(strip=True) source text (stripping is applied where the code
does). -/
structure Cell where
  colspan : Option PyStr := none
  rowspan : Option PyStr := none
  text : PyStr := []
deriving DecidableEq

/-- get_text(strip=True). -/
def cellText (c : Cell) : PyStr := pyStrip c.text

/-- A table row: its class attribute tokens and its th/td cells. -/
structure Row where
  classes : List PyStr := []
  cells : List Cell := []
deriving DecidableEq

/-- A table element: id attribute, class tokens, optional thead row list,
optional tbody row list, and rows sitting directly in the table.  Document
order of rows is thead rows, then tbody rows, then loose rows. -/
structure Table where
  id : Option PyStr := none
  classes : List PyStr := []
  theadRows : Option (List Row) := none
  tbodyRows : Option (List Row) := none
  extraRows : List Row := []
deriving DecidableEq

/-- A parsed document, reduced to its table elements in document order. -/
abbrev Document := List Table

/-- All tr elements of a table in document order (table.find_all(tr)). -/
def allRows (t : Table) : List Row :=
  t.theadRows.getD [] ++ t.tbodyRows.getD [] ++ t.extraRows

/-- table.find(tr): the first row anywhere in the table. -/
def tableFirstRow (t : Table) : Option Row := (allRows t).head?

/-- The rows the data phase walks: tbody rows, or all rows if the table
has no tbody. -/
def bodyRows (t : Table) : List Row :=
  match t.tbodyRows with
  | some rs => rs
  | none => allRows t

/-- A record: a Python dict from column name to cell text, as an ordered
association list with distinct keys. -/
abbrev Record := List (PyStr × PyStr)

/-- Python dict assignment d[k] = v: overwrite in place or append. -/
def pyDictSet : Record → PyStr → PyStr → Record
  | [], k, v => [(k, v)]
  | (k0, v0) :: t, k, v =>
    if k0 = k then (k0, v) :: t else (k0, v0) :: pyDictSet t k v

/-- The keys of a record. -/
def recKeys (r : Record) : List PyStr := r.map Prod.fst

/-! ### Header Matrix Builder (phase 1 of extract_table_data) -/

/-- Sum of colspans of one header row (the col_count loop). -/
def sumColspans (r : Row) : Except PyErr Int :=
  r.cells.foldlM (fun acc c => do pure (acc + (← spanVal c.colspan))) (0 : Int)

/-- max_cols: the maximum over header rows of the sum of colspans. -/
def computeMaxCols (rows : List Row) : Except PyErr Int :=
  rows.foldlM (fun m r => do pure (max m (← sumColspans r))) (0 : Int)

/-- The header matrix state. -/
abbrev HMatrix := List (List PyStr)

/-- header_matrix[r][c] read. -/
def matGetE (mat : HMatrix) (r c : Int) : Except PyErr PyStr := do
  pyGetE (← pyGetE mat r) c

/-- header_matrix[r][c] = v. -/
def matSetE (mat : HMatrix) (r c : Int) (v : PyStr) : Except PyErr HMatrix := do
  let row ← pyGetE mat r
  let row2 ← pySetE row c v
  pySetE mat r row2

/-- The while loop that skips grid cells already filled by rowspan from
earlier rows (fuel-counted version of the source loop; fuel bounds the
iterations, which increase colIdx toward maxCols). -/
def skipFilledAux (row : List PyStr) (maxCols : Int) : Nat → Int → Except PyErr Int
  | 0, colIdx => pure colIdx
  | fuel + 1, colIdx =>
    if colIdx < maxCols then do
      let v ← pyGetE row colIdx
      if v = [] then pure colIdx else skipFilledAux row maxCols fuel (colIdx + 1)
    else pure colIdx

/-- while col_idx < max_cols and header_matrix[row_idx][col_idx]:
col_idx += 1. -/
def skipFilled (row : List PyStr) (maxCols : Int) (colIdx : Int) : Except PyErr Int :=
  skipFilledAux row maxCols (maxCols - colIdx).toNat colIdx

/-- One grid position of the fill: write the text only if the position is
still empty. -/
def fillCellStep (text : PyStr) (m : HMatrix) (r c : Int) : Except PyErr HMatrix := do
  let v ← matGetE m r c
  if v = [] then matSetE m r c text else pure m

/-- Write text into every still-empty grid position of
[rowIdx, min(rowIdx+rowspan, R)) x [colIdx, min(colIdx+colspan, maxCols)). -/
def fillRect (mat : HMatrix) (rowIdx colIdx rowspan colspan maxCols : Int) (text : PyStr) :
    Except PyErr HMatrix :=
  (intRange rowIdx (min (rowIdx + rowspan) (mat.length : Int))).foldlM
    (fun m r =>
      (intRange colIdx (min (colIdx + colspan) maxCols)).foldlM
        (fun m2 c => fillCellStep text m2 r c)
        m)
    mat

/-- Process the cells of one header row (the inner for loop, including the
break when the cursor passes max_cols). -/
def fillRow (mat : HMatrix) (rowIdx : Nat) (maxCols : Int) :
    List Cell → Int → Except PyErr HMatrix
  | [], _ => pure mat
  | cell :: rest, colIdx => do
    let row ← pyGetE mat (rowIdx : Int)
    let colIdx ← skipFilled row maxCols colIdx
    if maxCols ≤ colIdx then pure mat
    else do
      let colspan ← spanVal cell.colspan
      let rowspan ← spanVal cell.rowspan
      let mat2 ← fillRect mat (rowIdx : Int) colIdx rowspan colspan maxCols (cellText cell)
      fillRow mat2 rowIdx maxCols rest (colIdx + colspan)

/-- Build the header matrix from the thead rows. -/
def buildMatrix (rows : List Row) (maxCols : Int) : Except PyErr HMatrix :=
  let mat0 : HMatrix := List.replicate rows.length (List.replicate maxCols.toNat [])
  rows.enum.foldlM (fun mat p => fillRow mat p.1 maxCols p.2.cells 0) mat0

/-- Matrix entry by natural indices, for statements (grid reads in the
combination loop are always in range). -/
def entry (mat : HMatrix) (r c : Nat) : PyStr := (mat.getD r []).getD c []

/-- Deduplicate the non-empty texts of one column, keeping first
occurrences (the seen-set loop). -/
def dedupKeep : List PyStr → List PyStr → List PyStr
  | _, [] => []
  | seen, h :: t =>
    if h ≠ [] ∧ h ∉ seen then h :: dedupKeep (h :: seen) t
    else dedupKeep seen t

def known_categories : List PyStr :=
  [lit "Playing Time", lit "Performance", lit "Expected", lit "Progression", lit "Per 90 Minutes"]

/-- Combine the distinct texts of one grid column into one column name
(the rules of the combination policy, then normalization). -/
def combineColumn (norm : PyStr → PyStr) (tableName : Option PyStr) (colIdx : Nat)
    (colHeaders : List PyStr) : PyStr :=
  let uniq := dedupKeep [] colHeaders
  match uniq with
  | [] => colName colIdx
  | u0 :: _ =>
    let combined :=
      if 1 < uniq.length then
        let lastH := uniq.getLastD []
        let firstH := u0
        if pyStrip lastH = [] then
          (if pyStrip firstH ≠ [] then pyStrip firstH else colName colIdx)
        else if pyStrip firstH ≠ [] ∧ firstH ≠ lastH ∧ uniq.length = 2 then
          if tableName = some (lit "standard_for") ∧ pyStrip firstH ∈ known_categories ∧
              pyStrip lastH ≠ [] then
            pyStrip firstH ++ lit "_" ++ pyStrip lastH
          else if containsSub (lit "/") lastH ∨
              lastH ∈ [lit "xG", lit "xGA", lit "xGD", lit "xGD/90", lit "Last 5"] then
            pyStrip lastH
          else if firstH ∈ [lit "Expected", lit "Goals", lit "Points"] ∧
              firstH ∉ known_categories then
            pyStrip lastH
          else pyStrip (firstH ++ 32 :: lastH)
        else pyStrip lastH
      else pyStrip u0
    norm combined

/-- The non-empty texts of one grid column, top to bottom. -/
def columnTexts (mat : HMatrix) (rowCount colIdx : Nat) : List PyStr :=
  (List.range rowCount).filterMap (fun r =>
    let v := entry mat r colIdx
    if v = [] then none else some v)

/-- Collapse the header matrix vertically into the Column Header List. -/
def headersOfMatrix (norm : PyStr → PyStr) (tableName : Option PyStr) (mat : HMatrix)
    (maxCols : Int) (rowCount : Nat) : List PyStr :=
  (List.range maxCols.toNat).map (fun c => combineColumn norm tableName c (columnTexts mat rowCount c))

/-- Fallback header construction from the first row of the table
(replication with index suffix for colspan greater than 1). -/
def appendSpanned (hs : List PyStr) (htext : PyStr) (colspan : Int) : List PyStr :=
  (List.range colspan.toNat).foldl
    (fun hs2 _ => hs2 ++ [if colspan = 1 then htext else htext ++ 95 :: natToStr hs2.length])
    hs

/-- Headers from the first row when the thead yields none. -/
def headersFromFirstRow (fr : Row) : Except PyErr (List PyStr) :=
  fr.cells.foldlM
    (fun hs c => do
      let colspan ← spanVal c.colspan
      let htext := cellText c
      let htext := if htext = [] then colName hs.length else htext
      pure (appendSpanned hs htext colspan))
    []

/-- Phase 1: the full header construction of extract_table_data. -/
def buildHeaders (norm : PyStr → PyStr) (t : Table) (tableName : Option PyStr) :
    Except PyErr (List PyStr) := do
  let headersA ←
    match t.theadRows with
    | some trs =>
      if trs ≠ [] then do
        let maxCols ← computeMaxCols trs
        let mat ← buildMatrix trs maxCols
        pure (headersOfMatrix norm tableName mat maxCols trs.length)
      else pure []
    | none => pure []
  let headersB ←
    if headersA = [] then
      match tableFirstRow t with
      | none => pure []
      | some fr => headersFromFirstRow fr
    else pure headersA
  if headersB = [] then
    let r1 := t.tbodyRows.bind List.head?
    let r2 := match r1 with | some r => some r | none => tableFirstRow t
    match r2 with
    | none => pure []
    | some r => pure ((List.range r.cells.length).map colName)
  else pure headersB

/-! ### Row Extractor (phase 2 of extract_table_data) -/

/-- Grow the header list in place with synthesized names while the cursor
is at or past its end (fuel-counted while loop). -/
def growHeadersAux : Nat → List PyStr → Int → List PyStr
  | 0, hs, _ => hs
  | fuel + 1, hs, colIdx =>
    if (hs.length : Int) ≤ colIdx then growHeadersAux fuel (hs ++ [colName hs.length]) colIdx
    else hs

/-- while col_idx >= len(headers): headers.append(col_n). -/
def growHeaders (hs : List PyStr) (colIdx : Int) : List PyStr :=
  growHeadersAux (colIdx + 1 - hs.length).toNat hs colIdx

/-- State while walking the cells of one body row. -/
structure RowState where
  headers : List PyStr
  colIdx : Int
  rowData : Record
deriving DecidableEq

/-- Process one data cell: grow headers if needed, assign the text to the
header at the cursor and to the further colspan-1 spanned headers, advance
the cursor by colspan. -/
def processCell (st : RowState) (cell : Cell) : Except PyErr RowState := do
  let headers := growHeaders st.headers st.colIdx
  let colspan ← spanVal cell.colspan
  let header ←
    if st.colIdx < (headers.length : Int) then pyGetE headers st.colIdx
    else pure (colName st.colIdx.toNat)
  let text := cellText cell
  let rd := pyDictSet st.rowData header text
  let rd ← (intRange 1 colspan).foldlM
    (fun rd2 i =>
      if st.colIdx + i < (headers.length : Int) then do
        let h ← pyGetE headers (st.colIdx + i)
        pure (pyDictSet rd2 h text)
      else pure rd2)
    rd
  pure ⟨headers, st.colIdx + colspan, rd⟩

/-- for header in headers: if header not in row_data: row_data[header] = ''. -/
def fillMissing : List PyStr → Record → Record
  | [], rd => rd
  | h :: t, rd => fillMissing t (if (alookup rd h).isSome then rd else pyDictSet rd h [])

/-- Is the row a repeated-header row (class attribute present and the
token thead occurs in the space-join of its classes)? -/
def isTheadClassRow (r : Row) : Bool :=
  !r.classes.isEmpty && containsSub (lit "thead") (joinSpace r.classes)

/-- Process one body row into (grown headers, optional record). -/
def processRow (hs : List PyStr) (r : Row) : Except PyErr (List PyStr × Option Record) :=
  if isTheadClassRow r then pure (hs, none)
  else do
    let st ← r.cells.foldlM processCell ⟨hs, 0, []⟩
    let rd := fillMissing st.headers st.rowData
    pure (st.headers, if rd = [] then none else some rd)

/-- Phase 2: extract the records of all body rows (the header list is
threaded through because the source grows it in place). -/
def extractRows (hs : List PyStr) (rows : List Row) :
    Except PyErr (List Record × List PyStr) :=
  rows.foldlM
    (fun acc r => do
      let (hs2, rec?) ← processRow acc.2 r
      pure (match rec? with | some rd => acc.1 ++ [rd] | none => acc.1, hs2))
    ([], hs)

/-- extract_table_data applied to a located table element. -/
def extractFromTable (norm : PyStr → PyStr) (t : Table) (tableName : Option PyStr) :
    Except PyErr (List Record) := do
  let headers ← buildHeaders norm t tableName
  let res ← extractRows headers (bodyRows t)
  pure res.1

/-! ### Table lookup inside extract_table_data (the soup.find calls) -/

/-- soup.find(table, id=tid): first table whose id attribute equals tid. -/
def soupFindTableById (doc : Document) (tid : PyStr) : Option Table :=
  doc.find? (fun t => t.id = some tid)

/-- Does the table carry the stats_table class marker? -/
def hasStatsClass (t : Table) : Bool := (lit "stats_table") ∈ t.classes

/-- Does the id attribute exist and contain the substring stats
(case-insensitively)? -/
def idContainsStats (t : Table) : Bool :=
  match t.id with
  | some i => containsSub (lit "stats") (pyLower i)
  | none => false

/-- The fallback chain when extract_table_data gets no usable id:
stats_table class, then id containing stats, then any table. -/
def fancyFind (doc : Document) : Option Table :=
  match doc.find? hasStatsClass with
  | some t => some t
  | none =>
    match doc.find? idContainsStats with
    | some t => some t
    | none => doc.head?

/-- Resolve the table argument of extract_table_data (a None or empty id
string is falsy and routes to the fallback chain). -/
def resolveTable (doc : Document) (tableId : Option PyStr) : Option Table :=
  match tableId with
  | some tid => if tid ≠ [] then soupFindTableById doc tid else fancyFind doc
  | none => fancyFind doc

/-- extract_table_data (both sources; norm selects which normalizer). -/
def extract_table_data (norm : PyStr → PyStr) (doc : Document) (tableId : Option PyStr)
    (tableName : Option PyStr) : Except PyErr (List Record) :=
  match resolveTable doc tableId with
  | none => .ok []
  | some t => extractFromTable norm t tableName

/-! ### Table Locator (fbref-extract.py find_table_by_type) -/

/-- TABLE_MAPPING of fbref-extract.py: candidate id matchers per logical
table type, in declared order.  The last two geral entries are the raw
strings of the generic regex patterns. -/
def TABLE_MAPPING : List (PyStr × List PyStr) :=
  [ (lit "geral",
     [ lit "stats_results_2025-2026_111_overall",
       lit "results_2025-2026_111_overall",
       lit "stats_results_2025-2026111_overall",
       lit "results2025-2026111_overall",
       lit "stats_results_.*_overall",
       lit "results.*_overall" ]),
    (lit "standard_for",
     [ lit "stats_squads_standard_for",
       lit "standard_for" ]),
    (lit "passing_for",
     [ lit "stats_squads_passing_for",
       lit "stats_squads_passing",
       lit "passing_for" ]),
    (lit "gca_for",
     [ lit "stats_squads_gca_for",
       lit "stats_squads_gca",
       lit "gca_for",
       lit "stats_gca_for" ]) ]

/-- The suffix of s immediately after the first occurrence of p, if p
occurs in s. -/
def afterFirstOcc (p : PyStr) : PyStr → Option PyStr
  | [] => if isPrefOf p [] then some [] else none
  | c :: t => if isPrefOf p (c :: t) then some ((c :: t).drop p.length) else afterFirstOcc p t

/-- Successive literal parts must occur in order (the semantics of
re.search for a pattern of literal runs separated by .*). -/
def seqMatch : List PyStr → PyStr → Bool
  | [], _ => true
  | p :: ps, s =>
    match afterFirstOcc p s with
    | some rest => seqMatch ps rest
    | none => false

/-- Split a pattern string on the literal two-character sequence .* (fuel
on the string length). -/
def splitOnDotStarAux : Nat → PyStr → List PyStr
  | 0, s => [s]
  | fuel + 1, s =>
    if isPrefOf (lit ".*") s then
      [] :: splitOnDotStarAux fuel (s.drop 2)
    else
      match s with
      | [] => [[]]
      | c :: t =>
        match splitOnDotStarAux fuel t with
        | [] => [[c]]
        | w :: ws => (c :: w) :: ws

def splitOnDotStar (s : PyStr) : List PyStr := splitOnDotStarAux s.length s

/-- re.compile(pattern, re.IGNORECASE).search(s): the mapping patterns are
literal runs separated by .*, compared case-insensitively. -/
def regexSearchIC (pat s : PyStr) : Bool :=
  seqMatch ((splitOnDotStar pat).map pyLower) (pyLower s)

/-- soup.find_all(table, id=regex): all tables with an id the pattern
matches, in document order. -/
def tablesMatchingPattern (doc : Document) (pat : PyStr) : List Table :=
  doc.filter (fun t =>
    match t.id with
    | some i => regexSearchIC pat i
    | none => false)

/-- The inner geral scan: return the first pattern candidate whose id does
not contain home_away. -/
def geralScan (ts : List Table) : Option Table :=
  ts.find? (fun t => !containsSub (lit "home_away") (pyLower (t.id.getD [])))

/-- The per-type substring checks of the class-based fallback. -/
def fallbackCheck (tableType : PyStr) (t : Table) : Bool :=
  let tid := pyLower (t.id.getD [])
  if tableType = lit "geral" then
    containsSub (lit "_overall") tid && !containsSub (lit "home_away") tid
  else if tableType = lit "standard_for" then containsSub (lit "standard_for") tid
  else if tableType = lit "passing_for" then containsSub (lit "passing_for") tid
  else if tableType = lit "gca_for" then containsSub (lit "gca_for") tid
  else false

/-- Fallback: scan the stats_table-classed tables with the per-type id
substring checks. -/
def locatorFallback (doc : Document) (tableType : PyStr) : Option Table :=
  (doc.filter hasStatsClass).find? (fallbackCheck tableType)

/-- The loop over candidate matchers: a string not starting with r is a
literal id; otherwise the leading r is stripped and the rest used as a
case-insensitive pattern. -/
def locLoop (doc : Document) (tableType : PyStr) : List PyStr → Option Table
  | [] => locatorFallback doc tableType
  | p :: ps =>
    if !isPrefOf (lit "r") p then
      match soupFindTableById doc p with
      | some t => some t
      | none => locLoop doc tableType ps
    else
      let pat := p.drop 1
      let ts := tablesMatchingPattern doc pat
      if ts ≠ [] then
        if tableType = lit "geral" then
          match geralScan ts with
          | some t => some t
          | none => locLoop doc tableType ps
        else ts.head?
      else locLoop doc tableType ps

/-- find_table_by_type. -/
def find_table_by_type (doc : Document) (tableType : PyStr) : Option Table :=
  locLoop doc tableType ((alookup TABLE_MAPPING tableType).getD [])

/-! ### Table-Set Extractor (fbref-extract.py scrape_any_page and the
serverless handler mapping) -/

/-- Drop the derived link columns of one record. -/
def stripLinkKeys (r : Record) : Record :=
  r.filter (fun kv => !isSufOf (lit "_link") kv.1)

/-- One iteration of the scrape loop: locate the table for a type and
extract it; none means the type is omitted (not found or no records). -/
def scrapeStepType (doc : Document) (tableType : PyStr) :
    Except PyErr (Option (List Record)) :=
  match find_table_by_type doc tableType with
  | none => .ok none
  | some tbl => do
    let tid := tbl.id.getD (lit "table_" ++ tableType)
    let data ← extract_table_data Api.normalize_header_name doc (some tid) (some tableType)
    if data = [] then pure none
    else pure (some (data.map stripLinkKeys))

/-- The loop over the four logical table types. -/
def scrapeLoop (doc : Document) : List PyStr → Except PyErr (List (PyStr × List Record))
  | [] => .ok []
  | tt :: rest => do
    let step ← scrapeStepType doc tt
    let tail ← scrapeLoop doc rest
    match step with
    | none => pure tail
    | some d => pure ((tt, d) :: tail)

def table_types : List PyStr :=
  [lit "geral", lit "standard_for", lit "passing_for", lit "gca_for"]

/-- The result dict of scrape_any_page, reduced to its error and tables
entries (the url entry is the input passthrough). -/
structure ScrapeResult where
  error : Option PyStr
  tables : List (PyStr × List Record)
deriving DecidableEq

def noTablesMsg : PyStr :=
  lit "Nenhuma tabela encontrada na página. Verifique se a URL está correta e se a página contém tabelas de estatísticas."

/-- scrape_any_page on an already-fetched document (the fetch layer and
its document-unavailable error are outside the core). -/
def scrape_any_page (doc : Document) : Except PyErr ScrapeResult := do
  let tabs ← scrapeLoop doc table_types
  if tabs = [] then pure ⟨some noTablesMsg, []⟩
  else pure ⟨none, tabs⟩

/-- The handler mapping: tables.get(type, []) for each of the four types. -/
def mappedTables (tabs : List (PyStr × List Record)) : List (PyStr × List Record) :=
  table_types.map (fun tt => (tt, (alookup tabs tt).getD []))

/-- The handler missing-tables computation: the types whose mapped list is
empty. -/
def missingTables (tabs : List (PyStr × List Record)) : List PyStr :=
  table_types.filter (fun tt => (alookup tabs tt).getD [] = [])

/-- extract_table_data with the final header list also returned (the
source mutates the header list in place; this exposes its final value). -/
def extractTableWithHeaders (norm : PyStr → PyStr) (t : Table) (tableName : Option PyStr) :
    Except PyErr (List Record × List PyStr) := do
  let headers ← buildHeaders norm t tableName
  extractRows headers (bodyRows t)

/-! ### Concrete scenario tables used by the claim theorems -/

/-- One header column, then body rows of one and two cells: the second row
grows the header list after the first record is complete. -/
def tableGrow : Table :=
  { theadRows := some [ { cells := [ { text := lit "A" } ] } ],
    tbodyRows := some
      [ { cells := [ { text := lit "1" } ] },
        { cells := [ { text := lit "2" }, { text := lit "3" } ] } ] }

/-- A header cell whose colspan attribute is present but not an integer. -/
def tableBadColspan : Table :=
  { theadRows := some [ { cells := [ { colspan := some (lit "abc"), text := lit "X" } ] } ] }

/-- A body row whose cell has a malformed colspan attribute. -/
def rowBadColspan : Row :=
  { cells := [ { colspan := some (lit "abc"), text := lit "1" } ] }

/-- The two-row header block of the combination-order scenario:
Performance / Expected above Gls / xG. -/
def tableStandard : Table :=
  { theadRows := some
      [ { cells := [ { text := lit "Performance" }, { text := lit "Expected" } ] },
        { cells := [ { text := lit "Gls" }, { text := lit "xG" } ] } ],
    tbodyRows := some [ { cells := [ { text := lit "1" }, { text := lit "2" } ] } ] }

/-- A single header cell spanning three columns. -/
def rowExpected3 : Row :=
  { cells := [ { colspan := some (lit "3"), text := lit "Expected" } ] }

/-- Row 0: Date with rowspan 2 and Performance with colspan 2; row 1 has
cells only for the last two columns. -/
def theadRowspan : List Row :=
  [ { cells := [ { rowspan := some (lit "2"), text := lit "Date" },
                 { colspan := some (lit "2"), text := lit "Performance" } ] },
    { cells := [ { text := lit "Gls" }, { text := lit "Ast" } ] } ]

/-- A table whose id equals none of the geral candidate strings but is
matched by the pattern the code derives from the literal that starts
with r. -/
def tableOverallz : Table := { id := some (lit "results2025-2026111_overallz") }

/-- Two tables whose ids are the second and first standard_for candidates,
in that document order. -/
def tableStdSecond : Table := { id := some (lit "standard_for") }

def tableStdFirst : Table := { id := some (lit "stats_squads_standard_for") }

/-- The overall/home_away pair of the claim scenario. -/
def tableOverall : Table := { id := some (lit "stats_results_2024-2025_999_overall") }

def tableHomeAway : Table := { id := some (lit "stats_results_2024-2025_999_home_away") }

/-- A pair in which both ids really match the geral pattern and the first
contains home_away. -/
def tableHomeAwayMatch : Table := { id := some (lit "stats_results_5_home_away_overall") }

def tableOverallMatch : Table := { id := some (lit "stats_results_6_overall") }

/-- A geral table with one header row and one data row. -/
def tableGeralData : Table :=
  { id := some (lit "stats_results_2025-2026_111_overall"),
    theadRows := some [ { cells := [ { text := lit "Squad" }, { text := lit "Pts" } ] } ],
    tbodyRows := some [ { cells := [ { text := lit "Inter" }, { text := lit "25" } ] } ] }


/-- All rows of the matrix have width C. -/
def UniformW (m : HMatrix) (C : Nat) : Prop := ∀ row ∈ m, row.length = C

/-- The span attribute is absent or parses to an integer of at least 1
(the well-formed region in which the spec describes the algorithm: colspan
and rowspan at least 1, default 1). -/
def WfSpan (a : Option PyStr) : Prop := ∃ k : Int, spanVal a = .ok k ∧ 1 ≤ k

/-- Every cell of the row has a well-formed colspan. -/
def WfRow (r : Row) : Prop := ∀ cell ∈ r.cells, WfSpan cell.colspan

/-- Every body row is well-formed. -/
def WfRows (rows : List Row) : Prop := ∀ r ∈ rows, WfRow r

/-! ## Helper lemmas -/

theorem pyGetE_eq_ok {α : Type} (l : List α) (n : Nat) (h : n < l.length) :
    pyGetE l (n : Int) = .ok l[n] := by
  have h1 : ¬((n : Int) < 0) := by omega
  have h2 : (0 : Int) ≤ (n : Int) ∧ (n : Int) < (l.length : Int) := by
    constructor <;> omega
  simp only [pyGetE, if_neg h1, if_pos h2, Int.toNat_natCast]
  rw [List.get?_eq_getElem?, List.getElem?_eq_getElem h]

theorem pySetE_eq_ok {α : Type} (l : List α) (n : Nat) (h : n < l.length) (v : α) :
    pySetE l (n : Int) v = .ok (l.set n v) := by
  have h1 : ¬((n : Int) < 0) := by omega
  have h2 : (0 : Int) ≤ (n : Int) ∧ (n : Int) < (l.length : Int) := by
    constructor <;> omega
  simp only [pySetE, if_neg h1, if_pos h2, Int.toNat_natCast]

theorem growHeaders_of_lt (hs : List PyStr) (i : Int) (h : i < (hs.length : Int)) :
    growHeaders hs i = hs := by
  have h0 : (i + 1 - hs.length).toNat = 0 := by omega
  rw [growHeaders, h0]
  rfl

theorem growHeadersAux_spec (fuel : Nat) :
    ∀ (hs : List PyStr) (i : Int), (i + 1 - hs.length).toNat ≤ fuel →
      hs <+: growHeadersAux fuel hs i ∧
        (0 ≤ i → i < ((growHeadersAux fuel hs i).length : Int)) := by
  induction fuel with
  | zero =>
    intro hs i h
    have : i < (hs.length : Int) := by omega
    exact ⟨List.prefix_refl hs, fun _ => by simpa [growHeadersAux] using this⟩
  | succ fuel ih =>
    intro hs i h
    by_cases hc : (hs.length : Int) ≤ i
    · have hlen : ((hs ++ [colName hs.length]).length : Int) = (hs.length : Int) + 1 := by
        simp
      have hfuel : (i + 1 - (hs ++ [colName hs.length]).length).toNat ≤ fuel := by
        rw [hlen]; omega
      have step := ih (hs ++ [colName hs.length]) i hfuel
      refine ⟨?_, ?_⟩
      · calc hs <+: hs ++ [colName hs.length] := ⟨[colName hs.length], rfl⟩
          _ <+: _ := by
            simpa [growHeadersAux, if_pos hc] using step.1
      · intro hi
        simpa [growHeadersAux, if_pos hc] using step.2 hi
    · have hlt : i < (hs.length : Int) := by omega
      refine ⟨?_, fun _ => ?_⟩ <;> simp [growHeadersAux, if_neg hc, hlt]

theorem growHeaders_spec (hs : List PyStr) (i : Int) (h0 : 0 ≤ i) :
    hs <+: growHeaders hs i ∧ i < ((growHeaders hs i).length : Int) := by
  have h := growHeadersAux_spec (i + 1 - hs.length).toNat hs i (le_refl _)
  exact ⟨h.1, h.2 h0⟩

theorem alookup_pyDictSet (r : Record) (k v k2 : PyStr) :
    alookup (pyDictSet r k v) k2 = if k2 = k then some v else alookup r k2 := by
  induction r with
  | nil =>
    simp only [pyDictSet, alookup]
    by_cases h : k = k2
    · rw [if_pos h, if_pos h.symm]
    · rw [if_neg h, if_neg (fun hh => h hh.symm)]
  | cons p t ih =>
    obtain ⟨k0, v0⟩ := p
    by_cases h0 : k0 = k
    · subst h0
      simp only [pyDictSet, if_pos rfl, alookup]
      by_cases h : k0 = k2
      · rw [if_pos h, if_pos h.symm]
      · rw [if_neg h, if_neg (fun hh => h hh.symm), if_neg h]
    · simp only [pyDictSet, if_neg h0, alookup]
      by_cases h : k0 = k2
      · have hk : ¬(k2 = k) := fun hh => h0 (h.trans hh)
        rw [if_pos h, if_neg hk, if_pos h]
      · rw [if_neg h, ih, if_neg h]

theorem pyDictSet_cons_hit (t : Record) (k0 v0 k v : PyStr) (h : k0 = k) :
    pyDictSet ((k0, v0) :: t) k v = (k0, v) :: t := by
  simp [pyDictSet, h]

theorem pyDictSet_cons_miss (t : Record) (k0 v0 k v : PyStr) (h : ¬k0 = k) :
    pyDictSet ((k0, v0) :: t) k v = (k0, v0) :: pyDictSet t k v := by
  simp [pyDictSet, h]

theorem recKeys_pyDictSet (r : Record) (k v k2 : PyStr) :
    k2 ∈ recKeys (pyDictSet r k v) ↔ k2 = k ∨ k2 ∈ recKeys r := by
  induction r with
  | nil => simp [pyDictSet, recKeys]
  | cons p t ih =>
    obtain ⟨k0, v0⟩ := p
    by_cases h0 : k0 = k
    · subst h0
      rw [pyDictSet_cons_hit t k0 v0 k0 v rfl]
      simp only [recKeys, List.map_cons, List.mem_cons]
      tauto
    · rw [pyDictSet_cons_miss t k0 v0 k v h0]
      simp only [recKeys] at ih
      simp only [recKeys, List.map_cons, List.mem_cons]
      rw [ih]
      tauto

theorem intRange_eq_nil (lo hi : Int) (h : hi ≤ lo) : intRange lo hi = [] := by
  have h0 : (hi - lo).toNat = 0 := by omega
  simp [intRange, h0, intRangeAux]

theorem intRange_eq_cons (lo hi : Int) (h : lo < hi) :
    intRange lo hi = lo :: intRange (lo + 1) hi := by
  have h1 : (hi - lo).toNat = (hi - (lo + 1)).toNat + 1 := by omega
  unfold intRange
  rw [h1]
  rfl

theorem getD_set_self {α : Type} (l : List α) (i : Nat) (v d : α) (h : i < l.length) :
    (l.set i v).getD i d = v := by
  simp [List.getD_eq_getElem?_getD, List.getElem?_set_self h]

theorem getD_set_ne {α : Type} (l : List α) (i j : Nat) (v d : α) (h : i ≠ j) :
    (l.set i v).getD j d = l.getD j d := by
  simp [List.getD_eq_getElem?_getD, List.getElem?_set_ne h]

theorem getD_eq_getElem_of_lt {α : Type} (l : List α) (n : Nat) (d : α) (h : n < l.length) :
    l.getD n d = l[n] := by
  simp [List.getD_eq_getElem?_getD, List.getElem?_eq_getElem h]

theorem matGetE_eq_ok (m : HMatrix) (C : Nat) (r c : Nat) (hu : UniformW m C)
    (hr : r < m.length) (hc : c < C) :
    matGetE m (r : Int) (c : Int) = .ok (entry m r c) := by
  have hrow : m.getD r [] = m[r] := getD_eq_getElem_of_lt m r [] hr
  have hlen : m[r].length = C := hu m[r] (List.getElem_mem hr)
  have hc2 : c < m[r].length := by omega
  simp only [matGetE, Bind.bind, Except.bind, pyGetE_eq_ok m r hr, pyGetE_eq_ok m[r] c hc2,
    entry, hrow, getD_eq_getElem_of_lt m[r] c [] hc2]

theorem matSetE_eq_ok (m : HMatrix) (C : Nat) (r c : Nat) (v : PyStr) (hu : UniformW m C)
    (hr : r < m.length) (hc : c < C) :
    matSetE m (r : Int) (c : Int) v = .ok (m.set r (m[r].set c v)) := by
  have hlen : m[r].length = C := hu m[r] (List.getElem_mem hr)
  have hc2 : c < m[r].length := by omega
  simp only [matSetE, Bind.bind, Except.bind, pyGetE_eq_ok m r hr,
    pySetE_eq_ok m[r] c hc2 v, pySetE_eq_ok m r hr]

theorem uniform_set (m : HMatrix) (C : Nat) (r : Nat) (row : List PyStr) (hu : UniformW m C)
    (hrow : row.length = C) : UniformW (m.set r row) C := by
  intro x hx
  rcases List.mem_or_eq_of_mem_set hx with h | h
  · exact hu x h
  · subst h; exact hrow

theorem entry_set_spec (m : HMatrix) (C : Nat) (r c : Nat) (text : PyStr) (hu : UniformW m C)
    (hr : r < m.length) (hc : c < C) (r' c' : Nat) :
    entry (m.set r (m[r].set c text)) r' c' =
      if r' = r ∧ c' = c then text else entry m r' c' := by
  have hlen : m[r].length = C := hu m[r] (List.getElem_mem hr)
  by_cases h1 : r' = r
  · subst h1
    unfold entry
    rw [getD_set_self m r' _ [] hr]
    by_cases h2 : c' = c
    · subst h2
      rw [getD_set_self m[r'] c' text [] (by omega), if_pos ⟨rfl, rfl⟩]
    · rw [getD_set_ne m[r'] c c' text [] (fun hh => h2 hh.symm),
        if_neg (fun hh => h2 hh.2), getD_eq_getElem_of_lt m r' [] hr]
  · unfold entry
    rw [getD_set_ne m r r' _ [] (fun hh => h1 hh.symm), if_neg (fun hh => h1 hh.1)]

theorem fillCellStep_eq (text : PyStr) (m : HMatrix) (C : Nat) (r c : Nat) (hu : UniformW m C)
    (hr : r < m.length) (hc : c < C) :
    fillCellStep text m (r : Int) (c : Int) =
      .ok (if entry m r c = [] then m.set r (m[r].set c text) else m) := by
  simp only [fillCellStep, Bind.bind, Except.bind, matGetE_eq_ok m C r c hu hr hc,
    matSetE_eq_ok m C r c text hu hr hc]
  by_cases h : entry m r c = []
  · rw [if_pos h, if_pos h]
  · rw [if_neg h, if_neg h]
    rfl

/-- Characterization of the column loop of the fill, over one row index. -/
theorem fillCols_spec (text : PyStr) (C : Nat) (r : Nat) :
    ∀ (n : Nat) (lo hi : Int) (m : HMatrix), (hi - lo).toNat = n →
      UniformW m C → r < m.length → 0 ≤ lo → hi ≤ (C : Int) →
      ∃ m2,
        (intRange lo hi).foldlM (fun mm c => fillCellStep text mm (r : Int) c) m = .ok m2 ∧
        m2.length = m.length ∧ UniformW m2 C ∧
        ∀ (r' c' : Nat), r' < m.length → c' < C →
          entry m2 r' c' =
            if r' = r ∧ lo ≤ (c' : Int) ∧ (c' : Int) < hi ∧ entry m r' c' = [] then text
            else entry m r' c' := by
  intro n
  induction n with
  | zero =>
    intro lo hi m hn hu hr hlo hhi
    have hle : hi ≤ lo := by omega
    refine ⟨m, ?_, rfl, hu, ?_⟩
    · rw [intRange_eq_nil lo hi hle]; rfl
    · intro r' c' _ _
      rw [if_neg (fun hh =>
        (by omega : ¬(lo ≤ (c' : Int) ∧ (c' : Int) < hi)) ⟨hh.2.1, hh.2.2.1⟩)]
  | succ n ih =>
    intro lo hi m hn hu hr hlo hhi
    have hlt : lo < hi := by omega
    have hcn : lo.toNat < C := by omega
    have hcast : ((lo.toNat : Nat) : Int) = lo := by omega
    rw [intRange_eq_cons lo hi hlt]
    have hstep := fillCellStep_eq text m C r lo.toNat hu hr hcn
    rw [hcast] at hstep
    set m1 := if entry m r lo.toNat = [] then m.set r (m[r].set lo.toNat text) else m with hm1
    have hm1len : m1.length = m.length := by
      rw [hm1]; split <;> simp
    have hm1uni : UniformW m1 C := by
      rw [hm1]; split
      · exact uniform_set m C r (m[r].set lo.toNat text) hu
          (by rw [List.length_set]; exact hu m[r] (List.getElem_mem hr))
      · exact hu
    have hm1entry : ∀ (r' c' : Nat), r' < m.length → c' < C →
        entry m1 r' c' =
          if r' = r ∧ c' = lo.toNat ∧ entry m r' c' = [] then text else entry m r' c' := by
      intro r' c' hr' hc'
      rw [hm1]
      by_cases hemp : entry m r lo.toNat = []
      · rw [if_pos hemp, entry_set_spec m C r lo.toNat text hu hr hcn r' c']
        by_cases hcond : r' = r ∧ c' = lo.toNat
        · rw [if_pos hcond, if_pos ⟨hcond.1, hcond.2, by rw [hcond.1, hcond.2]; exact hemp⟩]
        · rw [if_neg hcond, if_neg (fun hh => hcond ⟨hh.1, hh.2.1⟩)]
      · rw [if_neg hemp]
        by_cases hcond : r' = r ∧ c' = lo.toNat ∧ entry m r' c' = []
        · exact absurd (by rw [← hcond.1, ← hcond.2.1]; exact hcond.2.2) hemp
        · rw [if_neg hcond]
    obtain ⟨m2, hfold, hlen2, huni2, hent2⟩ :=
      ih (lo + 1) hi m1 (by omega) hm1uni (by omega) (by omega) hhi
    refine ⟨m2, ?_, by omega, huni2, ?_⟩
    · rw [List.foldlM_cons, hstep]
      simpa using hfold
    · intro r' c' hr' hc'
      rw [hent2 r' c' (by omega) hc']
      by_cases hcase : r' = r ∧ lo + 1 ≤ (c' : Int) ∧ (c' : Int) < hi ∧ entry m1 r' c' = []
      · rw [if_pos hcase]
        have he : entry m1 r' c' = entry m r' c' := by
          rw [hm1entry r' c' hr' hc',
            if_neg (fun hh => absurd hh.2.1 (by omega : ¬(c' = lo.toNat)))]
        rw [if_pos ⟨hcase.1, by omega, hcase.2.2.1, by rw [← he]; exact hcase.2.2.2⟩]
      · rw [if_neg hcase, hm1entry r' c' hr' hc']
        by_cases hA : r' = r ∧ c' = lo.toNat ∧ entry m r' c' = []
        · rw [if_pos hA, if_pos ⟨hA.1, by omega, by omega, hA.2.2⟩]
        · rw [if_neg hA]
          have hne : ¬(r' = r ∧ lo ≤ (c' : Int) ∧ (c' : Int) < hi ∧ entry m r' c' = []) := by
            intro hh
            by_cases hc0 : (c' : Int) = lo
            · exact hA ⟨hh.1, by omega, hh.2.2.2⟩
            · refine hcase ⟨hh.1, by omega, hh.2.2.1, ?_⟩
              rw [hm1entry r' c' hr' hc',
                if_neg (fun h2 => absurd h2.2.1 (by omega : ¬(c' = lo.toNat)))]
              exact hh.2.2.2
          rw [if_neg hne]

/-- Characterization of the full rectangle fill. -/
theorem fillRectRows_spec (text : PyStr) (C : Nat) (clo chi : Int) :
    ∀ (n : Nat) (rlo rhi : Int) (m : HMatrix), (rhi - rlo).toNat = n →
      UniformW m C → 0 ≤ rlo → rhi ≤ (m.length : Int) → 0 ≤ clo → chi ≤ (C : Int) →
      ∃ m2,
        (intRange rlo rhi).foldlM
          (fun mm r => (intRange clo chi).foldlM (fun mm2 c => fillCellStep text mm2 r c) mm)
          m = .ok m2 ∧
        m2.length = m.length ∧ UniformW m2 C ∧
        ∀ (r' c' : Nat), r' < m.length → c' < C →
          entry m2 r' c' =
            if rlo ≤ (r' : Int) ∧ (r' : Int) < rhi ∧ clo ≤ (c' : Int) ∧ (c' : Int) < chi ∧
                entry m r' c' = [] then text
            else entry m r' c' := by
  intro n
  induction n with
  | zero =>
    intro rlo rhi m hn hu hrlo hrhi hclo hchi
    have hle : rhi ≤ rlo := by omega
    refine ⟨m, ?_, rfl, hu, ?_⟩
    · rw [intRange_eq_nil rlo rhi hle]; rfl
    · intro r' c' _ _
      rw [if_neg (fun hh =>
        (by omega : ¬(rlo ≤ (r' : Int) ∧ (r' : Int) < rhi)) ⟨hh.1, hh.2.1⟩)]
  | succ n ih =>
    intro rlo rhi m hn hu hrlo hrhi hclo hchi
    have hlt : rlo < rhi := by omega
    have hrn : rlo.toNat < m.length := by omega
    have hcast : ((rlo.toNat : Nat) : Int) = rlo := by omega
    rw [intRange_eq_cons rlo rhi hlt]
    obtain ⟨m1, hfold1, hlen1, huni1, hent1⟩ :=
      fillCols_spec text C rlo.toNat (chi - clo).toNat clo chi m rfl hu hrn hclo hchi
    rw [hcast] at hfold1
    obtain ⟨m2, hfold2, hlen2, huni2, hent2⟩ :=
      ih (rlo + 1) rhi m1 (by omega) huni1 (by omega) (by omega) hclo hchi
    refine ⟨m2, ?_, by omega, huni2, ?_⟩
    · rw [List.foldlM_cons, hfold1]
      simpa using hfold2
    · intro r' c' hr' hc'
      have hm1len2 : r' < m1.length := by omega
      rw [hent2 r' c' hm1len2 hc']
      by_cases hcase : rlo + 1 ≤ (r' : Int) ∧ (r' : Int) < rhi ∧ clo ≤ (c' : Int) ∧
          (c' : Int) < chi ∧ entry m1 r' c' = []
      · rw [if_pos hcase]
        have he : entry m1 r' c' = entry m r' c' := by
          rw [hent1 r' c' hr' hc',
            if_neg (fun hh => absurd hh.1 (by omega : ¬(r' = rlo.toNat)))]
        rw [if_pos ⟨by omega, hcase.2.1, hcase.2.2.1, hcase.2.2.2.1,
          by rw [← he]; exact hcase.2.2.2.2⟩]
      · rw [if_neg hcase, hent1 r' c' hr' hc']
        by_cases hA : r' = rlo.toNat ∧ clo ≤ (c' : Int) ∧ (c' : Int) < chi ∧ entry m r' c' = []
        · rw [if_pos hA, if_pos ⟨by omega, by omega, hA.2.1, hA.2.2.1, hA.2.2.2⟩]
        · rw [if_neg hA]
          have hne : ¬(rlo ≤ (r' : Int) ∧ (r' : Int) < rhi ∧ clo ≤ (c' : Int) ∧
              (c' : Int) < chi ∧ entry m r' c' = []) := by
            intro hh
            by_cases hr0 : (r' : Int) = rlo
            · exact hA ⟨by omega, hh.2.2.1, hh.2.2.2.1, hh.2.2.2.2⟩
            · refine hcase ⟨by omega, hh.2.1, hh.2.2.1, hh.2.2.2.1, ?_⟩
              rw [hent1 r' c' hr' hc',
                if_neg (fun h2 => absurd h2.1 (by omega : ¬(r' = rlo.toNat)))]
              exact hh.2.2.2.2
          rw [if_neg hne]

theorem mem_intRangeAux : ∀ (n : Nat) (lo i : Int), i ∈ intRangeAux n lo → lo ≤ i ∧ i < lo + n := by
  intro n
  induction n with
  | zero =>
    intro lo i h
    simp [intRangeAux] at h
  | succ n ih =>
    intro lo i h
    rw [intRangeAux] at h
    rcases List.mem_cons.mp h with h | h
    · omega
    · have := ih (lo + 1) i h
      omega

theorem mem_intRange (lo hi i : Int) (h : i ∈ intRange lo hi) : lo ≤ i ∧ i < hi := by
  have := mem_intRangeAux (hi - lo).toNat lo i h
  omega

theorem alookup_isSome_iff (rd : Record) (k : PyStr) :
    (alookup rd k).isSome ↔ k ∈ recKeys rd := by
  induction rd with
  | nil => simp [alookup, recKeys]
  | cons p t ih =>
    obtain ⟨k0, v0⟩ := p
    by_cases h : k0 = k
    · subst h
      simp [alookup, recKeys]
    · simp only [alookup, if_neg h, recKeys, List.map_cons, List.mem_cons]
      rw [ih]
      constructor
      · exact fun hm => Or.inr hm
      · rintro (hm | hm)
        · exact (h hm.symm).elim
        · exact hm

theorem fillMissing_keys : ∀ (hs : List PyStr) (rd : Record) (k : PyStr),
    k ∈ recKeys (fillMissing hs rd) ↔ k ∈ recKeys rd ∨ k ∈ hs := by
  intro hs
  induction hs with
  | nil =>
    intro rd k
    simp [fillMissing]
  | cons h0 t ih =>
    intro rd k
    rw [fillMissing, ih]
    by_cases hh : (alookup rd h0).isSome
    · rw [if_pos hh]
      have hmem : h0 ∈ recKeys rd := (alookup_isSome_iff rd h0).mp hh
      rw [List.mem_cons]
      constructor
      · rintro (h | h)
        · exact Or.inl h
        · exact Or.inr (Or.inr h)
      · rintro (h | h | h)
        · exact Or.inl h
        · subst h; exact Or.inl hmem
        · exact Or.inr h
    · rw [if_neg hh, recKeys_pyDictSet, List.mem_cons]
      tauto

theorem processCell_spec (st : RowState) (cell : Cell) (hwf : WfSpan cell.colspan)
    (h0 : 0 ≤ st.colIdx) (hkeys : ∀ k ∈ recKeys st.rowData, k ∈ st.headers) :
    ∃ st2 : RowState, processCell st cell = .ok st2 ∧
      st.headers <+: st2.headers ∧ 0 ≤ st2.colIdx ∧
      ∀ k ∈ recKeys st2.rowData, k ∈ st2.headers := by
  obtain ⟨cs, hcs, hcs1⟩ := hwf
  obtain ⟨hpre, hlen⟩ := growHeaders_spec st.headers st.colIdx h0
  have hilen : st.colIdx.toNat < (growHeaders st.headers st.colIdx).length := by omega
  have hicast : ((st.colIdx.toNat : Nat) : Int) = st.colIdx := Int.toNat_of_nonneg h0
  have hget := pyGetE_eq_ok (growHeaders st.headers st.colIdx) st.colIdx.toNat hilen
  rw [hicast] at hget
  have hfold : ∀ (L : List Int) (rd : Record), (∀ j ∈ L, 0 ≤ j) →
      (∀ k ∈ recKeys rd, k ∈ growHeaders st.headers st.colIdx) →
      ∃ rd2,
        L.foldlM (fun rd2 j =>
          if st.colIdx + j < ((growHeaders st.headers st.colIdx).length : Int) then do
            let h ← pyGetE (growHeaders st.headers st.colIdx) (st.colIdx + j)
            pure (pyDictSet rd2 h (cellText cell))
          else pure rd2) rd = .ok rd2 ∧
        ∀ k ∈ recKeys rd2, k ∈ growHeaders st.headers st.colIdx := by
    intro L
    induction L with
    | nil =>
      intro rd _ hk
      exact ⟨rd, rfl, hk⟩
    | cons j L ih =>
      intro rd hj hk
      rw [List.foldlM_cons]
      by_cases hlt : st.colIdx + j < ((growHeaders st.headers st.colIdx).length : Int)
      · have hj0 : 0 ≤ j := hj j (List.mem_cons_self _ _)
        have hjn : (st.colIdx + j).toNat < (growHeaders st.headers st.colIdx).length := by
          omega
        have hjcast : (((st.colIdx + j).toNat : Nat) : Int) = st.colIdx + j := by omega
        have hget2 := pyGetE_eq_ok (growHeaders st.headers st.colIdx) (st.colIdx + j).toNat hjn
        rw [hjcast] at hget2
        obtain ⟨rd2, hreq, hrk⟩ :=
          ih (pyDictSet rd ((growHeaders st.headers st.colIdx)[(st.colIdx + j).toNat])
              (cellText cell))
            (fun x hx => hj x (List.mem_cons_of_mem _ hx))
            (fun k hkk => by
              rcases (recKeys_pyDictSet rd _ _ k).mp hkk with h | h
              · subst h
                exact List.getElem_mem hjn
              · exact hk k h)
        refine ⟨rd2, ?_, hrk⟩
        rw [if_pos hlt]
        simp only [Bind.bind, Except.bind, hget2, pure, Except.pure]
        exact hreq
      · rw [if_neg hlt]
        exact ih rd (fun x hx => hj x (List.mem_cons_of_mem _ hx)) hk
  obtain ⟨rd2, hreq, hrk⟩ :=
    hfold (intRange 1 cs)
      (pyDictSet st.rowData ((growHeaders st.headers st.colIdx)[st.colIdx.toNat])
        (cellText cell))
      (fun j hj => by have := mem_intRange 1 cs j hj; omega)
      (fun k hkk => by
        rcases (recKeys_pyDictSet st.rowData _ _ k).mp hkk with h | h
        · subst h
          exact List.getElem_mem hilen
        · exact hpre.subset (hkeys k h))
  refine ⟨⟨growHeaders st.headers st.colIdx, st.colIdx + cs, rd2⟩, ?_, hpre,
    (by show (0 : Int) ≤ st.colIdx + cs; omega), hrk⟩
  simp only [processCell, Bind.bind, Except.bind, hcs, if_pos hlen, hget, pure, Except.pure]
  simp only [Bind.bind, Except.bind, pure, Except.pure] at hreq
  rw [hreq]

theorem processRow_spec (hs : List PyStr) (r : Row) (hwf : WfRow r) :
    ∃ (hs2 : List PyStr) (rec? : Option Record), processRow hs r = .ok (hs2, rec?) ∧
      hs <+: hs2 ∧ ∀ rd, rec? = some rd → (∀ k, k ∈ recKeys rd ↔ k ∈ hs2) := by
  by_cases hskip : isTheadClassRow r = true
  · exact ⟨hs, none, by rw [processRow, if_pos hskip]; rfl, List.prefix_refl hs,
      fun rd h => by cases h⟩
  · have hcells : ∀ (cells : List Cell) (st : RowState), (∀ c ∈ cells, WfSpan c.colspan) →
        0 ≤ st.colIdx → (∀ k ∈ recKeys st.rowData, k ∈ st.headers) →
        ∃ st2 : RowState, cells.foldlM processCell st = .ok st2 ∧
          st.headers <+: st2.headers ∧
          ∀ k ∈ recKeys st2.rowData, k ∈ st2.headers := by
      intro cells
      induction cells with
      | nil =>
        intro st _ _ hk
        exact ⟨st, rfl, List.prefix_refl _, hk⟩
      | cons c cells ih =>
        intro st hwfc h0 hk
        obtain ⟨st1, hstep, hp1, h01, hk1⟩ :=
          processCell_spec st c (hwfc c (List.mem_cons_self _ _)) h0 hk
        obtain ⟨st2, hrest, hp2, hk2⟩ :=
          ih st1 (fun x hx => hwfc x (List.mem_cons_of_mem _ hx)) h01 hk1
        refine ⟨st2, ?_, hp1.trans hp2, hk2⟩
        rw [List.foldlM_cons]
        simp only [Bind.bind, Except.bind, hstep]
        exact hrest
    obtain ⟨st2, hfold, hpre, hk2⟩ :=
      hcells r.cells ⟨hs, 0, []⟩ hwf (le_refl 0) (by intro k hk; simp [recKeys] at hk)
    refine ⟨st2.headers, if fillMissing st2.headers st2.rowData = [] then none
        else some (fillMissing st2.headers st2.rowData), ?_, hpre, ?_⟩
    · simp only [processRow, hskip, Bool.false_eq_true, if_false, Bind.bind, Except.bind,
        hfold, pure, Except.pure]
    · intro rd hrd
      by_cases hemp : fillMissing st2.headers st2.rowData = []
      · rw [if_pos hemp] at hrd
        cases hrd
      · rw [if_neg hemp] at hrd
        cases hrd
        intro k
        rw [fillMissing_keys]
        constructor
        · rintro (h | h)
          · exact hk2 k h
          · exact h
        · exact fun h => Or.inr h

theorem extractRows_go : ∀ (rows : List Row) (hs : List PyStr) (acc : List Record),
    WfRows rows →
    ∃ (data : List Record) (hs2 : List PyStr),
      rows.foldlM
        (fun acc2 r => do
          let (hs3, rec?) ← processRow acc2.2 r
          pure (match rec? with | some rd => acc2.1 ++ [rd] | none => acc2.1, hs3))
        (acc, hs) = .ok (acc ++ data, hs2) ∧
      hs <+: hs2 ∧
      ∀ rd ∈ data, ∃ hmid, hs <+: hmid ∧ hmid <+: hs2 ∧ (∀ k, k ∈ recKeys rd ↔ k ∈ hmid) := by
  intro rows
  induction rows with
  | nil =>
    intro hs acc _
    exact ⟨[], hs, by simp [pure, Except.pure], List.prefix_refl _, by simp⟩
  | cons r rows ih =>
    intro hs acc hwf
    obtain ⟨hs1, rec?, hrow, hp1, hrec⟩ := processRow_spec hs r (hwf r (List.mem_cons_self _ _))
    rw [List.foldlM_cons]
    cases rec? with
    | none =>
      obtain ⟨data, hs2, hfold, hp2, hdata⟩ :=
        ih hs1 acc (fun x hx => hwf x (List.mem_cons_of_mem _ hx))
      refine ⟨data, hs2, ?_, hp1.trans hp2, ?_⟩
      · simp only [Bind.bind, Except.bind, hrow, pure, Except.pure]
        exact hfold
      · intro rd hrd
        obtain ⟨hmid, hm1, hm2, hmk⟩ := hdata rd hrd
        exact ⟨hmid, hp1.trans hm1, hm2, hmk⟩
    | some rd0 =>
      obtain ⟨data, hs2, hfold, hp2, hdata⟩ :=
        ih hs1 (acc ++ [rd0]) (fun x hx => hwf x (List.mem_cons_of_mem _ hx))
      refine ⟨[rd0] ++ data, hs2, ?_, hp1.trans hp2, ?_⟩
      · simp only [Bind.bind, Except.bind, hrow, pure, Except.pure]
        rw [← List.append_assoc]
        exact hfold
      · intro rd hrd
        rcases List.mem_append.mp hrd with h | h
        · rw [List.mem_singleton] at h
          rw [h]
          exact ⟨hs1, hp1, hp2, hrec rd0 rfl⟩
        · obtain ⟨hmid, hm1, hm2, hmk⟩ := hdata rd h
          exact ⟨hmid, hp1.trans hm1, hm2, hmk⟩

theorem alookup_mem {α : Type} : ∀ (l : List (PyStr × α)) (k : PyStr) (v : α),
    alookup l k = some v → (k, v) ∈ l := by
  intro l
  induction l with
  | nil =>
    intro k v h
    cases h
  | cons p t ih =>
    intro k v h
    obtain ⟨k0, v0⟩ := p
    by_cases h0 : k0 = k
    · subst h0
      rw [alookup, if_pos rfl] at h
      injection h with h
      subst h
      exact List.mem_cons_self _ _
    · rw [alookup, if_neg h0] at h
      exact List.mem_cons_of_mem _ (ih k v h)

theorem scrapeStepType_some_ne_nil (doc : Document) (tt : PyStr) (d : List Record)
    (h : scrapeStepType doc tt = .ok (some d)) : d ≠ [] := by
  rw [scrapeStepType] at h
  cases hf : find_table_by_type doc tt with
  | none =>
    rw [hf] at h
    simp at h
  | some tbl =>
    rw [hf] at h
    cases he : extract_table_data Api.normalize_header_name doc
        (some (tbl.id.getD (lit "table_" ++ tt))) (some tt) with
    | error e =>
      simp [Bind.bind, Except.bind, he] at h
    | ok data =>
      simp only [Bind.bind, Except.bind, he] at h
      by_cases hd : data = []
      · rw [if_pos hd] at h
        simp [pure, Except.pure] at h
      · rw [if_neg hd] at h
        simp only [pure, Except.pure] at h
        injection h with h
        injection h with h
        intro hd0
        apply hd
        rw [← h] at hd0
        exact List.map_eq_nil_iff.mp hd0

theorem scrapeStepType_none_of_notfound (doc : Document) (tt : PyStr)
    (h : find_table_by_type doc tt = none) : scrapeStepType doc tt = .ok none := by
  rw [scrapeStepType, h]

theorem scrapeStepType_none_of_nodata (doc : Document) (tt : PyStr) (tbl : Table)
    (h : find_table_by_type doc tt = some tbl)
    (he : extract_table_data Api.normalize_header_name doc
      (some (tbl.id.getD (lit "table_" ++ tt))) (some tt) = .ok []) :
    scrapeStepType doc tt = .ok none := by
  rw [scrapeStepType, h]
  simp only [Bind.bind, Except.bind, he, if_pos rfl]
  rfl

theorem scrapeLoop_spec : ∀ (tts : List PyStr) (doc : Document)
    (tabs : List (PyStr × List Record)), scrapeLoop doc tts = .ok tabs →
    (∀ p ∈ tabs, p.2 ≠ []) ∧
    (∀ tt d, alookup tabs tt = some d ↔ tt ∈ tts ∧ scrapeStepType doc tt = .ok (some d)) := by
  intro tts
  induction tts with
  | nil =>
    intro doc tabs h
    rw [scrapeLoop] at h
    injection h with h
    subst h
    refine ⟨by simp, fun tt d => ?_⟩
    simp [alookup]
  | cons tt0 rest ih =>
    intro doc tabs h
    rw [scrapeLoop] at h
    cases hstep : scrapeStepType doc tt0 with
    | error e =>
      simp [Bind.bind, Except.bind, hstep] at h
    | ok step? =>
      cases htail : scrapeLoop doc rest with
      | error e =>
        simp [Bind.bind, Except.bind, hstep, htail] at h
      | ok tail =>
        obtain ⟨htne, htiff⟩ := ih doc tail htail
        cases step? with
        | none =>
          simp only [Bind.bind, Except.bind, hstep, htail, pure, Except.pure] at h
          injection h with h
          subst h
          refine ⟨htne, fun tt d => ?_⟩
          rw [htiff tt d]
          constructor
          · rintro ⟨hm, h2⟩
            exact ⟨List.mem_cons_of_mem _ hm, h2⟩
          · rintro ⟨hm, h2⟩
            rcases List.mem_cons.mp hm with hm | hm
            · subst hm
              rw [hstep] at h2
              simp at h2
            · exact ⟨hm, h2⟩
        | some d0 =>
          have hd0 : d0 ≠ [] := scrapeStepType_some_ne_nil doc tt0 d0 hstep
          simp only [Bind.bind, Except.bind, hstep, htail, pure, Except.pure] at h
          injection h with h
          subst h
          constructor
          · intro p hp
            rcases List.mem_cons.mp hp with hp | hp
            · rw [hp]
              exact hd0
            · exact htne p hp
          · intro tt d
            rw [alookup]
            by_cases he : tt0 = tt
            · subst he
              rw [if_pos rfl]
              constructor
              · intro hsome
                injection hsome with hsome
                subst hsome
                exact ⟨List.mem_cons_self _ _, hstep⟩
              · rintro ⟨hm, h2⟩
                rw [hstep] at h2
                simpa using h2
            · rw [if_neg he, htiff tt d]
              constructor
              · rintro ⟨hm, h2⟩
                exact ⟨List.mem_cons_of_mem _ hm, h2⟩
              · rintro ⟨hm, h2⟩
                rcases List.mem_cons.mp hm with hm | hm
                · exact absurd hm.symm he
                · exact ⟨hm, h2⟩

theorem lowerChar_upperChar (n : Nat) : lowerChar (upperChar n) = lowerChar n := by
  unfold lowerChar upperChar
  split_ifs <;> omega

theorem lowerChar_lowerChar (n : Nat) : lowerChar (lowerChar n) = lowerChar n := by
  unfold lowerChar
  split_ifs <;> omega

theorem upperChar_upperChar (n : Nat) : upperChar (upperChar n) = upperChar n := by
  unfold upperChar
  split_ifs <;> omega

theorem isSpaceChar_lowerChar (n : Nat) : isSpaceChar (lowerChar n) = isSpaceChar n := by
  unfold lowerChar isSpaceChar
  split_ifs with h
  · have h1 : ¬(n + 32 == 32 || n + 32 == 9 || n + 32 == 10 || n + 32 == 13 || n + 32 == 11 ||
        n + 32 == 12) = true := by
      simp only [Bool.or_eq_true, beq_iff_eq]
      omega
    have h2 : ¬(n == 32 || n == 9 || n == 10 || n == 13 || n == 11 || n == 12) = true := by
      simp only [Bool.or_eq_true, beq_iff_eq]
      omega
    rw [Bool.eq_false_iff.mpr h1, Bool.eq_false_iff.mpr h2]
  · rfl

theorem isSpaceChar_upperChar (n : Nat) : isSpaceChar (upperChar n) = isSpaceChar n := by
  unfold upperChar isSpaceChar
  split_ifs with h
  · have h1 : ¬(n - 32 == 32 || n - 32 == 9 || n - 32 == 10 || n - 32 == 13 || n - 32 == 11 ||
        n - 32 == 12) = true := by
      simp only [Bool.or_eq_true, beq_iff_eq]
      omega
    have h2 : ¬(n == 32 || n == 9 || n == 10 || n == 13 || n == 11 || n == 12) = true := by
      simp only [Bool.or_eq_true, beq_iff_eq]
      omega
    rw [Bool.eq_false_iff.mpr h1, Bool.eq_false_iff.mpr h2]
  · rfl

/-- Every word produced by the split is nonempty and whitespace-free. -/
theorem pySplitAux_words : ∀ (s acc : PyStr), (∀ c ∈ acc, isSpaceChar c = false) →
    ∀ w ∈ pySplitAux acc s, w ≠ [] ∧ ∀ c ∈ w, isSpaceChar c = false := by
  intro s
  induction s with
  | nil =>
    intro acc hacc w hw
    rw [pySplitAux] at hw
    by_cases hacc0 : acc = []
    · rw [if_pos hacc0] at hw
      cases hw
    · rw [if_neg hacc0] at hw
      rw [List.mem_singleton] at hw
      subst hw
      refine ⟨by simpa using hacc0, fun c hc => hacc c (List.mem_reverse.mp hc)⟩
  | cons c0 rest ih =>
    intro acc hacc w hw
    rw [pySplitAux] at hw
    by_cases hsp : isSpaceChar c0 = true
    · rw [if_pos hsp] at hw
      by_cases hacc0 : acc = []
      · rw [if_pos hacc0] at hw
        exact ih [] (by simp) w hw
      · rw [if_neg hacc0] at hw
        rcases List.mem_cons.mp hw with hw | hw
        · subst hw
          refine ⟨by simpa using hacc0, fun c hc => hacc c (List.mem_reverse.mp hc)⟩
        · exact ih [] (by simp) w hw
    · rw [if_neg hsp] at hw
      refine ih (c0 :: acc) ?_ w hw
      intro c hc
      rcases List.mem_cons.mp hc with hc | hc
      · subst hc
        exact Bool.eq_false_iff.mpr hsp
      · exact hacc c hc

theorem pySplit_words (s : PyStr) :
    ∀ w ∈ pySplit s, w ≠ [] ∧ ∀ c ∈ w, isSpaceChar c = false :=
  pySplitAux_words s [] (by simp)

/-- Scanning a whitespace-free chunk accumulates it. -/
theorem pySplitAux_chunk : ∀ (w s acc : PyStr), (∀ c ∈ w, isSpaceChar c = false) →
    pySplitAux acc (w ++ s) = pySplitAux (w.reverse ++ acc) s := by
  intro w
  induction w with
  | nil =>
    intro s acc _
    simp
  | cons c w ih =>
    intro s acc hwf
    have hc : isSpaceChar c = false := hwf c (List.mem_cons_self _ _)
    rw [List.cons_append, pySplitAux, if_neg (by simp [hc])]
    rw [ih s (c :: acc) (fun x hx => hwf x (List.mem_cons_of_mem _ hx))]
    simp

/-- Splitting the space-join of nonempty whitespace-free words recovers
them. -/
theorem pySplit_joinSpace : ∀ (L : List PyStr),
    (∀ w ∈ L, w ≠ [] ∧ ∀ c ∈ w, isSpaceChar c = false) →
    pySplit (joinSpace L) = L := by
  intro L
  induction L with
  | nil =>
    intro _
    rfl
  | cons w M ih =>
    intro hL
    obtain ⟨hw0, hwf⟩ := hL w (List.mem_cons_self _ _)
    cases M with
    | nil =>
      show pySplitAux [] (joinSpace [w]) = [w]
      rw [joinSpace]
      have hch := pySplitAux_chunk w [] [] hwf
      rw [List.append_nil, List.append_nil] at hch
      rw [hch, pySplitAux, if_neg (by simpa using hw0)]
      simp
    | cons x M2 =>
      show pySplitAux [] (joinSpace (w :: x :: M2)) = w :: x :: M2
      rw [joinSpace, pySplitAux_chunk w (32 :: joinSpace (x :: M2)) [] hwf]
      rw [pySplitAux, if_pos (by rfl), if_neg (by simpa using hw0)]
      rw [List.append_nil, List.reverse_reverse]
      have := ih (fun u hu => hL u (List.mem_cons_of_mem _ hu))
      rw [pySplit] at this
      rw [this]

theorem pySplit_collapse (s : PyStr) : pySplit (collapse s) = pySplit s := by
  rw [collapse]
  exact pySplit_joinSpace (pySplit s) (pySplit_words s)

theorem collapse_collapse (s : PyStr) : collapse (collapse s) = collapse s := by
  rw [collapse, pySplit_collapse]
  rfl

theorem pyLower_joinSpace : ∀ (L : List PyStr),
    pyLower (joinSpace L) = joinSpace (L.map pyLower) := by
  intro L
  induction L with
  | nil => rfl
  | cons w M ih =>
    cases M with
    | nil => rfl
    | cons x M2 =>
      show pyLower (w ++ 32 :: joinSpace (x :: M2)) = _
      rw [pyLower, List.map_append, List.map_cons]
      show _ ++ lowerChar 32 :: pyLower (joinSpace (x :: M2)) = _
      rw [ih]
      rfl

theorem pyLower_pyCapitalize (w : PyStr) : pyLower (pyCapitalize w) = pyLower w := by
  cases w with
  | nil => rfl
  | cons c r =>
    rw [pyCapitalize, pyLower, pyLower, List.map_cons, List.map_cons, List.map_map,
      lowerChar_upperChar]
    congr 1
    apply List.map_congr_left
    intro a _
    exact lowerChar_lowerChar a

theorem pyCapitalize_pyCapitalize (w : PyStr) :
    pyCapitalize (pyCapitalize w) = pyCapitalize w := by
  cases w with
  | nil => rfl
  | cons c r =>
    rw [pyCapitalize, pyCapitalize, upperChar_upperChar, List.map_map]
    congr 1
    apply List.map_congr_left
    intro a _
    exact lowerChar_lowerChar a

theorem pyCapitalize_wf (w : PyStr) (h0 : w ≠ []) (hwf : ∀ c ∈ w, isSpaceChar c = false) :
    pyCapitalize w ≠ [] ∧ ∀ c ∈ pyCapitalize w, isSpaceChar c = false := by
  cases w with
  | nil => exact absurd rfl h0
  | cons c r =>
    rw [pyCapitalize]
    refine ⟨by simp, fun x hx => ?_⟩
    rcases List.mem_cons.mp hx with hx | hx
    · subst hx
      rw [isSpaceChar_upperChar]
      exact hwf c (List.mem_cons_self _ _)
    · obtain ⟨a, ha, rfl⟩ := List.mem_map.mp hx
      rw [isSpaceChar_lowerChar]
      exact hwf a (List.mem_cons_of_mem _ ha)

theorem loopFind_mem : ∀ (l : List (PyStr × PyStr)) (hl v : PyStr),
    loopFind l hl = some v → ∃ k, (k, v) ∈ l := by
  intro l
  induction l with
  | nil =>
    intro hl v h
    cases h
  | cons p t ih =>
    intro hl v h
    obtain ⟨k0, v0⟩ := p
    rw [loopFind] at h
    split_ifs at h with hc
    · injection h with h
      subst h
      exact ⟨k0, List.mem_cons_self _ _⟩
    · obtain ⟨k, hk⟩ := ih hl v h
      exact ⟨k, List.mem_cons_of_mem _ hk⟩

/-- Every canonical value of the synonym table is a fixed point of the
scraper normalizer. -/
theorem normalize_fixed_mapping_values :
    ∀ p ∈ field_mapping, Scraper.normalize_header_name p.2 = p.2 := by decide

theorem compoundFields_values (hl v : PyStr) (h : compoundFields hl = some v) :
    v = lit "Pts/MP" ∨ v = lit "xGD/90" ∨ v = lit "Last 5" ∨ v = lit "Top Team Scorer" := by
  rw [compoundFields] at h
  split_ifs at h
  all_goals cases h
  all_goals decide

theorem normalize_compound_fixed (hl v : PyStr) (h : compoundFields hl = some v) :
    Scraper.normalize_header_name v = v := by
  rcases compoundFields_values hl v h with h1 | h1 | h1 | h1 <;> subst h1 <;> decide

/-- When all three lookups miss, the scraper normalizer is the case
branch of the collapsed input. -/
theorem normalize_of_branches (v : PyStr) (hv : v ≠ [])
    (hex : alookup field_mapping (pyStrip (pyLower (collapse v))) = none)
    (hloop : loopFind field_mapping (pyStrip (pyLower (collapse v))) = none)
    (hcomp : compoundFields (pyStrip (pyLower (collapse v))) = none) :
    Scraper.normalize_header_name v = caseBranch (collapse v) := by
  simp only [Scraper.normalize_header_name, if_neg hv, hex, hloop, hcomp]

/-- The case branch of a collapsed string is collapsed, has the same
lower-casing, and is its own case branch. -/
theorem caseBranch_props (h : PyStr) (hcol : collapse h = h) :
    collapse (caseBranch h) = caseBranch h ∧
    pyLower (caseBranch h) = pyLower h ∧
    caseBranch (caseBranch h) = caseBranch h := by
  rw [caseBranch]
  by_cases huni : (pyIsUpper h || pyIsLower h) = true
  case neg =>
    rw [if_neg huni]
    refine ⟨hcol, rfl, ?_⟩
    rw [caseBranch, if_neg huni]
  case pos =>
    rw [if_pos huni]
    by_cases hlen : 1 < (pySplit h).length
    · rw [if_pos hlen]
      have hwords : ∀ w ∈ (pySplit h).map pyCapitalize,
          w ≠ [] ∧ ∀ c ∈ w, isSpaceChar c = false := by
        intro w hw
        obtain ⟨u, hu, rfl⟩ := List.mem_map.mp hw
        obtain ⟨hu0, huwf⟩ := pySplit_words h u hu
        exact pyCapitalize_wf u hu0 huwf
      have hsplitT : pySplit (joinSpace ((pySplit h).map pyCapitalize)) =
          (pySplit h).map pyCapitalize := pySplit_joinSpace _ hwords
      have hcolT : collapse (joinSpace ((pySplit h).map pyCapitalize)) =
          joinSpace ((pySplit h).map pyCapitalize) := by
        rw [collapse, hsplitT]
      have hlowT : pyLower (joinSpace ((pySplit h).map pyCapitalize)) = pyLower h := by
        rw [pyLower_joinSpace, List.map_map]
        have hmc : (pySplit h).map (pyLower ∘ pyCapitalize) = (pySplit h).map pyLower := by
          apply List.map_congr_left
          intro a _
          exact pyLower_pyCapitalize a
        rw [hmc, ← pyLower_joinSpace]
        show pyLower (collapse h) = pyLower h
        rw [hcol]
      refine ⟨hcolT, hlowT, ?_⟩
      rw [caseBranch]
      by_cases huniT : (pyIsUpper (joinSpace ((pySplit h).map pyCapitalize)) ||
          pyIsLower (joinSpace ((pySplit h).map pyCapitalize))) = true
      · rw [if_pos huniT, hsplitT, if_pos (by simpa using hlen), List.map_map]
        congr 1
        apply List.map_congr_left
        intro a _
        exact pyCapitalize_pyCapitalize a
      · rw [if_neg huniT]
    · rw [if_neg hlen]
      cases hws : pySplit h with
      | nil =>
        have h0 : h = [] := by
          rw [← hcol, collapse, hws]
          rfl
        subst h0
        exact absurd huni (by decide)
      | cons w ws2 =>
        rw [hws] at hlen
        have hws2 : ws2 = [] := by
          cases ws2 with
          | nil => rfl
          | cons y ys =>
            exfalso
            apply hlen
            have hlc : (w :: y :: ys).length = ys.length + 2 := by
              simp [List.length_cons]
            omega
        subst hws2
        have hw : h = w := by
          rw [← hcol, collapse, hws]
          rfl
        rw [hw]
        obtain ⟨hw0, hwwf⟩ := pySplit_words h w (by rw [hws]; exact List.mem_cons_self _ _)
        obtain ⟨hcw0, hcwwf⟩ := pyCapitalize_wf w hw0 hwwf
        have hsplitW : pySplit (pyCapitalize w) = [pyCapitalize w] := by
          have hj := pySplit_joinSpace [pyCapitalize w]
            (by
              intro u hu
              rw [List.mem_singleton] at hu
              subst hu
              exact ⟨hcw0, hcwwf⟩)
          rw [joinSpace] at hj
          exact hj
        have hcolW : collapse (pyCapitalize w) = pyCapitalize w := by
          rw [collapse, hsplitW, joinSpace]
        have hlowW : pyLower (pyCapitalize w) = pyLower w := pyLower_pyCapitalize w
        refine ⟨hcolW, hlowW, ?_⟩
        rw [caseBranch]
        by_cases huniW : (pyIsUpper (pyCapitalize w) || pyIsLower (pyCapitalize w)) = true
        · rw [if_pos huniW, hsplitW, if_neg (by simp)]
          exact pyCapitalize_pyCapitalize w
        · rw [if_neg huniW]

/-- The case branch output is a fixed point of the scraper normalizer
when all three lookups miss. -/
theorem caseBranch_fixed (h : PyStr) (hcol : collapse h = h)
    (hex : alookup field_mapping (pyStrip (pyLower h)) = none)
    (hloop : loopFind field_mapping (pyStrip (pyLower h)) = none)
    (hcomp : compoundFields (pyStrip (pyLower h)) = none) :
    Scraper.normalize_header_name (caseBranch h) = caseBranch h := by
  obtain ⟨hcolV, hlowV, hcbV⟩ := caseBranch_props h hcol
  by_cases hv : caseBranch h = []
  · rw [hv]
    decide
  · have hveq : pyStrip (pyLower (collapse (caseBranch h))) = pyStrip (pyLower h) := by
      rw [hcolV, hlowV]
    rw [normalize_of_branches (caseBranch h) hv (by rw [hveq]; exact hex)
      (by rw [hveq]; exact hloop) (by rw [hveq]; exact hcomp), hcolV, hcbV]

/-! ## Claim theorems -/

/-- C2: the claim states the core never raises for malformed markup, in
particular for span attributes that are present but not well-formed
integers.  The code calls int() on the raw attribute, which raises
ValueError: header building on a colspan of abc fails, and so does row
extraction. -/
theorem C2_span_parse_raises :
    extractFromTable Scraper.normalize_header_name tableBadColspan none =
      .error .valueError ∧
    extractRows [lit "A"] [rowBadColspan] = .error .valueError := by decide

/-- C6: the combination rules fire in source order a, b, c, d, e; for
declared type standard_for with header rows Performance/Expected above
Gls/xG the resolved names are Performance_Gls and Expected_xG (the
known-category join of rule b fires for Expected/xG before rule c is
reached). -/
theorem C6_combination_order :
    buildHeaders Scraper.normalize_header_name tableStandard (some (lit "standard_for")) =
      .ok [lit "Performance_Gls", lit "Expected_xG"] ∧
    extractFromTable Scraper.normalize_header_name tableStandard (some (lit "standard_for")) =
      .ok [[(lit "Performance_Gls", lit "1"), (lit "Expected_xG", lit "2")]] := by decide

/-- C1 counterexample: when a later body row grows the header list in
place, the record of an earlier row keeps only the keys that existed when
it was built.  Here the final Column Header List is [A, col_1] but the
first record has keys [A] only. -/
theorem C1_counterexample :
    extractTableWithHeaders Scraper.normalize_header_name tableGrow none =
      .ok ([[(lit "A", lit "1")], [(lit "A", lit "2"), (lit "col_1", lit "3")]],
           [lit "A", lit "col_1"]) ∧
    (lit "col_1") ∉ recKeys [(lit "A", lit "1")] := by decide

/-- C10: the scraper normalizer is idempotent: every output (synonym
values, prefix/suffix scan values, compound-heuristic values, title-cased
or unchanged case-branch results) is a fixed point of the normalizer. -/
theorem C10_normalize_idempotent (s : PyStr) :
    Scraper.normalize_header_name (Scraper.normalize_header_name s) =
      Scraper.normalize_header_name s := by
  by_cases hs : s = []
  · subst hs
    decide
  · cases hex : alookup field_mapping (pyStrip (pyLower (collapse s))) with
    | some v =>
      have hNs : Scraper.normalize_header_name s = v := by
        simp only [Scraper.normalize_header_name, if_neg hs, hex]
      rw [hNs]
      exact normalize_fixed_mapping_values _ (alookup_mem field_mapping _ v hex)
    | none =>
      cases hloop : loopFind field_mapping (pyStrip (pyLower (collapse s))) with
      | some v =>
        have hNs : Scraper.normalize_header_name s = v := by
          simp only [Scraper.normalize_header_name, if_neg hs, hex, hloop]
        rw [hNs]
        obtain ⟨k, hmem⟩ := loopFind_mem field_mapping _ v hloop
        exact normalize_fixed_mapping_values (k, v) hmem
      | none =>
        cases hcomp : compoundFields (pyStrip (pyLower (collapse s))) with
        | some v =>
          have hNs : Scraper.normalize_header_name s = v := by
            simp only [Scraper.normalize_header_name, if_neg hs, hex, hloop, hcomp]
          rw [hNs]
          exact normalize_compound_fixed _ v hcomp
        | none =>
          rw [normalize_of_branches s hs hex hloop hcomp]
          exact caseBranch_fixed (collapse s) (collapse_collapse s) hex hloop hcomp

/-- C1 amended: the Column Header List has one entry per Header Matrix
column; and in row extraction every produced Record has key set equal to
the header list as it stood when that row finished (a list extending the
initial headers and extended by the final ones).  Records built before a
later in-place growth do not receive the later synthesized keys, so the
key set equals the final Column Header List only for records after the
last growth (see the counterexample). -/
theorem C1_record_keys_amended :
    (∀ (norm : PyStr → PyStr) (tableName : Option PyStr) (mat : HMatrix) (maxCols : Int)
      (rowCount : Nat),
      (headersOfMatrix norm tableName mat maxCols rowCount).length = maxCols.toNat) ∧
    (∀ (rows : List Row) (hs : List PyStr) (hwf : WfRows rows),
      ∃ (data : List Record) (hs2 : List PyStr), extractRows hs rows = .ok (data, hs2) ∧
        hs <+: hs2 ∧
        ∀ rd ∈ data, ∃ hmid, hs <+: hmid ∧ hmid <+: hs2 ∧
          (∀ k, k ∈ recKeys rd ↔ k ∈ hmid)) := by
  constructor
  · intro norm tableName mat maxCols rowCount
    simp [headersOfMatrix]
  · intro rows hs hwf
    obtain ⟨data, hs2, hfold, hp, hdata⟩ := extractRows_go rows hs [] hwf
    exact ⟨data, hs2, by simpa [extractRows] using hfold, hp, hdata⟩

/-- Witness for C1: the amended row invariant applied to one well-formed
single-cell row under one header. -/
theorem C1_record_keys_amended_witness :
    ∃ (data : List Record) (hs2 : List PyStr),
      extractRows [lit "A"]
          [{ classes := [], cells := [{ colspan := none, rowspan := none, text := lit "1" }] }] =
        .ok (data, hs2) ∧
      [lit "A"] <+: hs2 ∧
      ∀ rd ∈ data, ∃ hmid, [lit "A"] <+: hmid ∧ hmid <+: hs2 ∧
        (∀ k, k ∈ recKeys rd ↔ k ∈ hmid) :=
  C1_record_keys_amended.2
    [{ classes := [], cells := [{ colspan := none, rowspan := none, text := lit "1" }] }]
    [lit "A"]
    (by
      intro r hr
      rw [List.mem_singleton] at hr
      subst hr
      intro cell hc
      rw [List.mem_singleton] at hc
      subst hc
      exact ⟨1, rfl, le_refl 1⟩)

/-- C3 counterexample: on a document with no tables, scrape_any_page
itself returns the error-shaped result (error message set, empty tables
mapping) instead of an empty result mapping for the caller to judge. -/
theorem C3_counterexample :
    scrape_any_page [] = .ok { error := some noTablesMsg, tables := [] } := by decide

/-- C3 amended: when scrape_any_page returns, each of the four types is in
the result mapping exactly when its per-type step yields records; a type
whose table is not found, or whose extraction yields zero records, is
omitted from the mapping; the handler missing-type list contains exactly
the omitted types; but on an overall-empty result the extractor itself
returns an error-shaped result (error set iff mapping empty) instead of
leaving the decision to the caller, and extraction shares the
span-parsing exception of the core. -/
theorem C3_scrape_result_amended :
    ∀ (doc : Document) (out : ScrapeResult) (hok : scrape_any_page doc = .ok out),
      (out.tables = [] ↔ out.error.isSome) ∧
      (∀ tt d, alookup out.tables tt = some d ↔
        tt ∈ table_types ∧ scrapeStepType doc tt = .ok (some d)) ∧
      (∀ tt, tt ∈ missingTables out.tables ↔
        tt ∈ table_types ∧ alookup out.tables tt = none) ∧
      (∀ tt, find_table_by_type doc tt = none → alookup out.tables tt = none) ∧
      (∀ tt tbl, find_table_by_type doc tt = some tbl →
        extract_table_data Api.normalize_header_name doc
          (some (tbl.id.getD (lit "table_" ++ tt))) (some tt) = .ok [] →
        alookup out.tables tt = none) := by
  intro doc out hok
  rw [scrape_any_page] at hok
  cases hl : scrapeLoop doc table_types with
  | error e =>
    simp [Bind.bind, Except.bind, hl] at hok
  | ok tabs =>
    obtain ⟨hne, hiff⟩ := scrapeLoop_spec table_types doc tabs hl
    simp only [Bind.bind, Except.bind, hl] at hok
    have hout : out = if tabs = [] then ⟨some noTablesMsg, []⟩ else ⟨none, tabs⟩ := by
      by_cases hemp : tabs = []
      · rw [if_pos hemp]
        rw [if_pos hemp] at hok
        simp only [pure, Except.pure] at hok
        injection hok with hok
        exact hok.symm
      · rw [if_neg hemp]
        rw [if_neg hemp] at hok
        simp only [pure, Except.pure] at hok
        injection hok with hok
        exact hok.symm
    have htab : out.tables = tabs := by
      rw [hout]
      by_cases hemp : tabs = []
      · rw [if_pos hemp, hemp]
      · rw [if_neg hemp]
    have hnone : ∀ tt, scrapeStepType doc tt = .ok none → alookup out.tables tt = none := by
      intro tt hstep
      rw [htab]
      cases halk : alookup tabs tt with
      | none => rfl
      | some d =>
        have h2 := (hiff tt d).mp halk
        rw [hstep] at h2
        simp at h2
    refine ⟨?_, ?_, ?_, ?_, ?_⟩
    · rw [htab, hout]
      by_cases hemp : tabs = []
      · rw [if_pos hemp]
        simp [hemp]
      · rw [if_neg hemp]
        simp [hemp]
    · intro tt d
      rw [htab]
      exact hiff tt d
    · intro tt
      rw [htab, missingTables, List.mem_filter]
      constructor
      · rintro ⟨hm, hp⟩
        refine ⟨hm, ?_⟩
        cases halk : alookup tabs tt with
        | none => rfl
        | some d =>
          rw [halk] at hp
          have hdne : d ≠ [] := hne (tt, d) (alookup_mem tabs tt d halk)
          simp at hp
          exact absurd hp hdne
      · rintro ⟨hm, hp⟩
        refine ⟨hm, ?_⟩
        rw [hp]
        simp
    · intro tt hfind
      exact hnone tt (scrapeStepType_none_of_notfound doc tt hfind)
    · intro tt tbl hfind hdata
      exact hnone tt (scrapeStepType_none_of_nodata doc tt tbl hfind hdata)

/-- Witness for C3: the amended statement applied to the one-table
document whose geral table has records. -/
theorem C3_scrape_result_amended_witness :
    ([(lit "geral",
        [[(lit "Squad", lit "Inter"), (lit "Pts", lit "25")]])] = ([] : List (PyStr × List Record))
      ↔ (none : Option PyStr).isSome) ∧
    (∀ tt d, alookup [(lit "geral", [[(lit "Squad", lit "Inter"), (lit "Pts", lit "25")]])] tt =
        some d ↔
      tt ∈ table_types ∧ scrapeStepType [tableGeralData] tt = .ok (some d)) ∧
    (∀ tt, tt ∈ missingTables [(lit "geral",
        [[(lit "Squad", lit "Inter"), (lit "Pts", lit "25")]])] ↔
      tt ∈ table_types ∧
        alookup [(lit "geral", [[(lit "Squad", lit "Inter"), (lit "Pts", lit "25")]])] tt = none) ∧
    (∀ tt, find_table_by_type [tableGeralData] tt = none →
      alookup [(lit "geral", [[(lit "Squad", lit "Inter"), (lit "Pts", lit "25")]])] tt = none) ∧
    (∀ tt tbl, find_table_by_type [tableGeralData] tt = some tbl →
      extract_table_data Api.normalize_header_name [tableGeralData]
        (some (tbl.id.getD (lit "table_" ++ tt))) (some tt) = .ok [] →
      alookup [(lit "geral", [[(lit "Squad", lit "Inter"), (lit "Pts", lit "25")]])] tt = none) := by
  have h := C3_scrape_result_amended [tableGeralData]
    ⟨none, [(lit "geral", [[(lit "Squad", lit "Inter"), (lit "Pts", lit "25")]])]⟩ (by decide)
  exact h

/-- C4 counterexample: the geral candidate results2025-2026111_overall is
declared as a literal identifier, but because it starts with r the code
strips the r and uses the rest as a case-insensitive pattern, so the
locator matches a table whose id equals none of the candidate strings. -/
theorem C4_counterexample :
    find_table_by_type [tableOverallz] (lit "geral") = some tableOverallz ∧
    tableOverallz.id ∉ ((alookup TABLE_MAPPING (lit "geral")).getD []).map some := by decide

/-- C4 amended: a literal candidate that does not start with r matches a
table exactly when that table is the first one whose id attribute equals
the literal; candidates are tried in declared order (here the first
standard_for candidate wins although its table comes later in the
document); a candidate starting with r is instead used as a pattern after
the r is dropped (see the counterexample). -/
theorem C4_literal_matcher_amended :
    (∀ (doc : Document) (p : PyStr) (t : Table) (hp : isPrefOf (lit "r") p = false),
      soupFindTableById doc p = some t ↔
        t.id = some p ∧ ∃ pre suf, doc = pre ++ t :: suf ∧ ∀ u ∈ pre, u.id ≠ some p) ∧
    find_table_by_type [tableStdSecond, tableStdFirst] (lit "standard_for") =
      some tableStdFirst := by
  refine ⟨?_, by decide⟩
  intro doc p t hp
  simp only [soupFindTableById]
  rw [List.find?_eq_some]
  constructor
  · rintro ⟨hpt, pre, suf, heq, hall⟩
    refine ⟨by simpa using hpt, pre, suf, heq, ?_⟩
    intro u hu
    simpa using hall u hu
  · rintro ⟨hid, pre, suf, heq, hall⟩
    exact ⟨by simpa using hid, pre, suf, heq, fun u hu => by simpa using hall u hu⟩

/-- Witness for C4: the literal characterization applied to the exact
standard_for id. -/
theorem C4_literal_matcher_amended_witness :
    soupFindTableById [tableStdFirst] (lit "stats_squads_standard_for") = some tableStdFirst ↔
      tableStdFirst.id = some (lit "stats_squads_standard_for") ∧
      ∃ pre suf, [tableStdFirst] = pre ++ tableStdFirst :: suf ∧
        ∀ u ∈ pre, u.id ≠ some (lit "stats_squads_standard_for") :=
  C4_literal_matcher_amended.1 [tableStdFirst] (lit "stats_squads_standard_for") tableStdFirst
    (by decide)

/-- C5: for the geral type the pattern step rejects every candidate whose
identifier contains home_away and returns the first remaining candidate in
document order; concretely, the locator returns the overall table of the
claim scenario, and the non-home_away table when two candidates really
match one pattern. -/
theorem C5_geral_tiebreak :
    (∀ (ts : List Table) (t : Table), geralScan ts = some t →
      containsSub (lit "home_away") (pyLower (t.id.getD [])) = false ∧
      ∃ pre suf, ts = pre ++ t :: suf ∧
        ∀ u ∈ pre, containsSub (lit "home_away") (pyLower (u.id.getD [])) = true) ∧
    find_table_by_type [tableOverall, tableHomeAway] (lit "geral") = some tableOverall ∧
    find_table_by_type [tableHomeAwayMatch, tableOverallMatch] (lit "geral") =
      some tableOverallMatch := by
  refine ⟨?_, by decide, by decide⟩
  intro ts t h
  simp only [geralScan] at h
  rw [List.find?_eq_some] at h
  obtain ⟨hp, pre, suf, heq, hall⟩ := h
  refine ⟨by simpa using hp, pre, suf, heq, ?_⟩
  intro u hu
  simpa using hall u hu

/-- Witness for C5: the general tie-break statement applied to the
two-candidate list in which both ids match a geral pattern. -/
theorem C5_geral_tiebreak_witness :
    containsSub (lit "home_away") (pyLower (tableOverallMatch.id.getD [])) = false :=
  (C5_geral_tiebreak.1 [tableHomeAwayMatch, tableOverallMatch] tableOverallMatch (by decide)).1

/-- C7: colspan replication in both phases.  A header cell with colspan 3
and text Expected yields three grid columns all holding Expected before
combination; and in row extraction a data cell with colspan 2 assigns its
text to the header at the cursor and to the next spanned header. -/
theorem C7_colspan_replication :
    (computeMaxCols [rowExpected3] = .ok 3 ∧
      buildMatrix [rowExpected3] 3 =
        .ok [[lit "Expected", lit "Expected", lit "Expected"]]) ∧
    (∀ (hs : List PyStr) (rd : Record) (i : Nat) (t : PyStr) (h : i + 1 < hs.length),
      ∃ st : RowState,
        processCell ⟨hs, (i : Int), rd⟩
            { colspan := some (lit "2"), rowspan := none, text := t } = .ok st ∧
        st.headers = hs ∧ st.colIdx = (i : Int) + 2 ∧
        alookup st.rowData hs[i] = some (pyStrip t) ∧
        alookup st.rowData hs[i + 1] = some (pyStrip t)) := by
  refine ⟨⟨by decide, by decide⟩, ?_⟩
  intro hs rd i t h
  have hi : i < hs.length := by omega
  have hi1 : i + 1 < hs.length := h
  have hgrow : growHeaders hs (i : Int) = hs := growHeaders_of_lt hs i (by omega)
  have hspan : spanVal (some (lit "2")) = .ok 2 := by decide
  have hrange : intRange 1 2 = [1] := rfl
  have hlt : ((i : Nat) : Int) < (hs.length : Int) := by omega
  have hlt1 : (((i + 1 : Nat)) : Int) < (hs.length : Int) := by omega
  have hcast : ((i : Nat) : Int) + 1 = ((i + 1 : Nat) : Int) := by omega
  refine ⟨⟨hs, (i : Int) + 2,
      pyDictSet (pyDictSet rd (hs[i]) (pyStrip t)) (hs[i + 1]) (pyStrip t)⟩, ?_, rfl, rfl, ?_, ?_⟩
  · simp only [processCell, hgrow, hspan, cellText, hrange, Bind.bind, Except.bind,
      if_pos hlt, pyGetE_eq_ok hs i hi, List.foldlM, hcast, if_pos hlt1,
      pyGetE_eq_ok hs (i + 1) hi1, pure, Except.pure]
  · rw [alookup_pyDictSet]
    by_cases hk : hs[i] = hs[i + 1]
    · rw [if_pos hk]
    · rw [if_neg hk, alookup_pyDictSet, if_pos rfl]
  · rw [alookup_pyDictSet, if_pos rfl]

/-- Witness for C7: the record part applied to a concrete two-header list
with the text 5. -/
theorem C7_colspan_replication_witness :
    ∃ st : RowState,
      processCell ⟨[lit "W", lit "D"], ((0 : Nat) : Int), []⟩
          { colspan := some (lit "2"), rowspan := none, text := lit "5" } = .ok st ∧
      st.headers = [lit "W", lit "D"] ∧ st.colIdx = ((0 : Nat) : Int) + 2 ∧
      alookup st.rowData ([lit "W", lit "D"])[0] = some (pyStrip (lit "5")) ∧
      alookup st.rowData ([lit "W", lit "D"])[0 + 1] = some (pyStrip (lit "5")) :=
  C7_colspan_replication.2 [lit "W", lit "D"] [] 0 (lit "5") (by decide)

/-- C8: the header fill writes the cell text into exactly the still-empty
grid positions of the rectangle [row, row+rowspan) x [col, col+colspan)
(clamped to the grid) and never overwrites a position already filled;
concretely, a row-0 cell with rowspan 2 and no cell beneath it in row 1
contributes its text as the row-1 entry of its column. -/
theorem C8_rowspan_propagation :
    (∀ (mat : HMatrix) (C : Nat) (rowIdx colIdx rowspan colspan : Int) (text : PyStr)
      (hu : UniformW mat C) (h0r : 0 ≤ rowIdx) (h0c : 0 ≤ colIdx),
      ∃ mat2, fillRect mat rowIdx colIdx rowspan colspan (C : Int) text = .ok mat2 ∧
        mat2.length = mat.length ∧ UniformW mat2 C ∧
        ∀ (r c : Nat), r < mat.length → c < C →
          entry mat2 r c =
            if rowIdx ≤ (r : Int) ∧ (r : Int) < rowIdx + rowspan ∧ colIdx ≤ (c : Int) ∧
                (c : Int) < colIdx + colspan ∧ entry mat r c = [] then text
            else entry mat r c) ∧
    (buildMatrix theadRowspan 3 =
        .ok [[lit "Date", lit "Performance", lit "Performance"],
             [lit "Date", lit "Gls", lit "Ast"]] ∧
      entry [[lit "Date", lit "Performance", lit "Performance"],
             [lit "Date", lit "Gls", lit "Ast"]] 1 0 = lit "Date") := by
  refine ⟨?_, by decide, by decide⟩
  intro mat C rowIdx colIdx rowspan colspan text hu h0r h0c
  obtain ⟨m2, hfold, hlen, huni, hent⟩ :=
    fillRectRows_spec text C colIdx (min (colIdx + colspan) (C : Int))
      ((min (rowIdx + rowspan) (mat.length : Int)) - rowIdx).toNat rowIdx
      (min (rowIdx + rowspan) (mat.length : Int)) mat rfl hu h0r (by omega) h0c (by omega)
  refine ⟨m2, hfold, hlen, huni, ?_⟩
  intro r c hr hc
  rw [hent r c hr hc]
  by_cases hcond : rowIdx ≤ (r : Int) ∧ (r : Int) < rowIdx + rowspan ∧ colIdx ≤ (c : Int) ∧
      (c : Int) < colIdx + colspan ∧ entry mat r c = []
  · rw [if_pos ⟨hcond.1, by omega, hcond.2.2.1, by omega, hcond.2.2.2.2⟩, if_pos hcond]
  · rw [if_neg (fun hh => hcond ⟨hh.1, by omega, hh.2.2.1, by omega, hh.2.2.2.2⟩),
      if_neg hcond]

/-- Witness for C8: the fill characterization applied to a one-cell
grid. -/
theorem C8_rowspan_propagation_witness :
    ∃ mat2, fillRect [[([] : PyStr)]] 0 0 1 1 ((1 : Nat) : Int) (lit "X") = .ok mat2 ∧
      mat2.length = ([[([] : PyStr)]] : HMatrix).length ∧ UniformW mat2 1 ∧
      ∀ (r c : Nat), r < ([[([] : PyStr)]] : HMatrix).length → c < 1 →
        entry mat2 r c =
          if (0 : Int) ≤ (r : Int) ∧ (r : Int) < 0 + 1 ∧ (0 : Int) ≤ (c : Int) ∧
              (c : Int) < 0 + 1 ∧ entry [[([] : PyStr)]] r c = [] then lit "X"
          else entry [[([] : PyStr)]] r c :=
  C8_rowspan_propagation.1 [[([] : PyStr)]] 1 0 0 1 1 (lit "X")
    (by intro row hrow; rw [List.mem_singleton] at hrow; subst hrow; rfl)
    (by omega) (by omega)

/-- C9 counterexample: Squad Total has no exact synonym match and matches
none of the four compound heuristics, and it is mixed-case, so the claim
says it is returned unchanged; the scraper.py normalizer instead returns
Squad through its prefix/suffix synonym scan. -/
theorem C9_counterexample :
    alookup field_mapping (lit "squad total") = none ∧
    compoundFields (lit "squad total") = none ∧
    Scraper.normalize_header_name (lit "Squad Total") = lit "Squad" := by decide

/-- C9 amended: the claimed behaviour is that of the api normalizer
(fbref-extract.py): on any input with no exact synonym match and no
compound-heuristic match, the result is the collapsed text, title-cased
when it is uniformly upper- or lower-case and unchanged otherwise; in
particular Squad Total is unchanged there. -/
theorem C9_case_adjustment_amended :
    (∀ (s : PyStr)
      (h1 : alookup field_mapping (pyStrip (pyLower (collapse s))) = none)
      (h2 : compoundFields (pyStrip (pyLower (collapse s))) = none),
      Api.normalize_header_name s =
        (if pyIsUpper (collapse s) || pyIsLower (collapse s) then
          (if 1 < (pySplit (collapse s)).length then
            joinSpace ((pySplit (collapse s)).map pyCapitalize)
          else pyCapitalize (collapse s))
        else collapse s)) ∧
    Api.normalize_header_name (lit "Squad Total") = lit "Squad Total" := by
  refine ⟨?_, by decide⟩
  intro s h1 h2
  by_cases hs : s = []
  · subst hs
    decide
  · simp only [Api.normalize_header_name, if_neg hs, h1, h2, caseBranch]

/-- Witness for C9: the amended statement applied to striker, which has no
synonym and no compound match. -/
theorem C9_case_adjustment_amended_witness :
    Api.normalize_header_name (lit "striker") =
      (if pyIsUpper (collapse (lit "striker")) || pyIsLower (collapse (lit "striker")) then
        (if 1 < (pySplit (collapse (lit "striker"))).length then
          joinSpace ((pySplit (collapse (lit "striker"))).map pyCapitalize)
        else pyCapitalize (collapse (lit "striker")))
      else collapse (lit "striker")) :=
  C9_case_adjustment_amended.1 (lit "striker") (by decide) (by decide)
